import Mathlib

/-! # logbook-parser: the CSV to spreadsheet converter of `main.go`

A shallow embedding of the conversion functions of `main.go` and of the two
per-cell steps of `main` (unit conversion, row writing).

Modelling conventions.

* A Go `string` is a `String`; the library routines that scan it are written
  over its list of characters.  Every routine modelled here only distinguishes
  ASCII characters (digits, signs, `:` and `/`), which occupy one byte each in
  UTF-8, so scanning characters and scanning bytes agree.
* A finite `float64` is the rational number it denotes, and every float
  operation rounds its exact result to the nearest `float64`, ties to even.
  The time and date functions only compute on integers of 64 bits and stay
  within the exponent range, so their values are kept as rationals
  (`roundF64`).  The values read by `strconv.ParseFloat` are of type `F64`,
  which has both zeros, the infinities, NaN and the exponent range.
* Logging (`fmt.Println`) has no effect on the values computed and is omitted.
-/

namespace Logbook

/-! ## `float64` arithmetic -/

/-- Two to the power `e`, for an integer exponent. -/
def pow2 (e : Int) : ℚ :=
  if 0 ≤ e then ((2 ^ e.toNat : Nat) : ℚ) else 1 / ((2 ^ (-e).toNat : Nat) : ℚ)

/-- The binary logarithm of `n`, rounded down, by repeated halving in at most
`fuel` steps. -/
def log2Fuel : Nat → Nat → Nat
  | 0, _ => 0
  | fuel + 1, n => if 2 ≤ n then log2Fuel fuel (n / 2) + 1 else 0

/-- The binary logarithm of a positive natural number, rounded down. -/
def natLog2 (n : Nat) : Nat := log2Fuel n n

/-- The binary exponent of a non-zero rational: the `e` with
`2^e ≤ |x| < 2^(e+1)`. -/
def binExp (x : ℚ) : Int :=
  let e0 : Int := (natLog2 x.num.natAbs : Int) - (natLog2 x.den : Int)
  if pow2 e0 ≤ |x| then e0 else e0 - 1

/-- Round a non-negative rational to the nearest integer, ties to even. -/
def roundHalfEven (q : ℚ) : Nat :=
  let f : Int := q.num / (q.den : Int)
  let r : ℚ := q - (f : ℚ)
  if r < 1 / 2 then f.toNat
  else if 1 / 2 < r then f.toNat + 1
  else if f % 2 = 0 then f.toNat else f.toNat + 1

/-- The `float64` nearest to a rational (IEEE 754 binary64, round to nearest,
ties to even): 53 significant bits at the binary exponent of `x`. -/
def roundF64 (x : ℚ) : ℚ :=
  if x = 0 then 0
  else
    let ulp : ℚ := pow2 (binExp x - 52)
    let m : ℚ := ((roundHalfEven (|x| / ulp) : Nat) : ℚ) * ulp
    if x < 0 then -m else m

/-- Go `float64(n)` for an integer `n`. -/
def ofInt (n : Int) : ℚ := roundF64 (n : ℚ)

/-- Go `x + y` on `float64`. -/
def fadd (x y : ℚ) : ℚ := roundF64 (x + y)

/-- Go `x / y` on `float64`, for a non-zero `y`. -/
def fdiv (x y : ℚ) : ℚ := roundF64 (x / y)

/-! ## `strings.Split` and `strconv.Atoi` -/

/-- Go `strings.Split(s, ":")` over the characters of `s`: the pieces between
consecutive colons, so a string with `n` colons has `n + 1` pieces. -/
def splitColon : List Char → List (List Char)
  | [] => [[]]
  | c :: cs =>
    if c = ':' then [] :: splitColon cs
    else
      match splitColon cs with
      | [] => [[c]]
      | p :: ps => (c :: p) :: ps

/-- The value of an ASCII digit, `none` for any other character. -/
def digitVal (c : Char) : Option Nat :=
  if c.isDigit then some (c.toNat - 48) else none

/-- The digit loop of `strconv.ParseUint` in base 10: `n = n*10 + d` over the
characters, failing at the first character that is not a digit. -/
def parseDigits : List Char → Nat → Option Nat
  | [], n => some n
  | c :: cs, n =>
    match digitVal c with
    | none => none
    | some d => parseDigits cs (n * 10 + d)

/-- Go `strconv.ParseUint(s, 10, 64)` without the range check, which `Atoi`
below applies to the signed value: the empty string is a syntax error. -/
def parseUnsigned (s : List Char) : Option Nat :=
  match s with
  | [] => none
  | _ => parseDigits s 0

/-- Go `strconv.Atoi(s)` on a 64-bit platform (`ParseInt(s, 10, 0)`): an
optional `+` or `-`, then one or more decimal digits; `none` stands for a
non-nil error (syntax, or value outside `[-2^63, 2^63 - 1]`). -/
def Atoi (s : List Char) : Option Int :=
  match s with
  | [] => none
  | c :: cs =>
    if c = '+' then
      match parseUnsigned cs with
      | none => none
      | some n => if n < 2 ^ 63 then some (n : Int) else none
    else if c = '-' then
      match parseUnsigned cs with
      | none => none
      | some n => if n ≤ 2 ^ 63 then some (-(n : Int)) else none
    else
      match parseUnsigned (c :: cs) with
      | none => none
      | some n => if n < 2 ^ 63 then some (n : Int) else none

/-! ## `convertTimeStringToExcel` -/

/-- Source `convertTimeStringToExcel` (main.go 24-47): split on `:`, require
exactly two parts, parse both with `Atoi`, return
`(float64(hours) + float64(minutes)/60.0) / 24.0`; every failure returns `0`. -/
def convertTimeStringToExcel (timeStr : String) : ℚ :=
  match splitColon timeStr.toList with
  | [p0, p1] =>
    match Atoi p0 with
    | none => 0
    | some hours =>
      match Atoi p1 with
      | none => 0
      | some minutes => fdiv (fadd (ofInt hours) (fdiv (ofInt minutes) 60)) 24
  | _ => 0

/-- The claim's "valid base-10 integer": an optional sign followed by one or
more ASCII digits. -/
def isDecimalInteger (s : List Char) : Bool :=
  match s with
  | [] => false
  | c :: cs =>
    if c = '+' ∨ c = '-' then !cs.isEmpty && cs.all Char.isDigit
    else (c :: cs).all Char.isDigit


/-! ## The Go `time` package, as far as `convertDateStringToExcel` uses it

The routines below follow the Go 1.22 sources of package `time`
(`format.go`, `time.go`); later releases compute the same day numbers with a
different formula.  Machine integers are `Int` with an explicit wrap where the
Go code converts or multiplies. -/

/-- The value of an `int64`/`int` holding `x` after a wrapping operation. -/
def int64 (x : Int) : Int :=
  (x + 9223372036854775808) % 18446744073709551616 - 9223372036854775808

/-- The value of a `uint64` holding `x` after a wrapping operation. -/
def uint64 (x : Int) : Int := x % 18446744073709551616

/-- Go `time.isDigit(s, i)`: position `i` exists and holds an ASCII digit. -/
def isDigitAt (s : List Char) (i : Nat) : Bool :=
  match s.get? i with
  | some c => c.isDigit
  | none => false

/-- The number written by two ASCII digits, `int(a-'0')*10 + int(b-'0')`. -/
def twoDigits (a b : Char) : Int :=
  ((a.toNat - 48 : Nat) : Int) * 10 + ((b.toNat - 48 : Nat) : Int)

/-- Go `time.getnum(s, fixed)`: one or two leading digits as a number (two are
required when `fixed`), with the rest of the string. -/
def getnum (s : List Char) (fixed : Bool) : Option (Int × List Char) :=
  if !isDigitAt s 0 then none
  else if !isDigitAt s 1 then
    if fixed then none
    else
      match s with
      | c0 :: rest => some (((c0.toNat - 48 : Nat) : Int), rest)
      | [] => none
  else
    match s with
    | c0 :: c1 :: rest =>
      some (twoDigits c0 c1, rest)
    | _ => none

/-- Go `time.leadingInt(s)`: the leading run of digits as a number and the
rest of the string; `none` on overflow past `2^63`.  An empty run gives 0. -/
def leadingInt : List Char → Nat → Option (Nat × List Char)
  | [], x => some (x, [])
  | c :: cs, x =>
    if c.isDigit then
      if x > 9223372036854775808 / 10 then none
      else
        let x1 := x * 10 + (c.toNat - 48)
        if x1 > 9223372036854775808 then none else leadingInt cs x1
    else some (x, c :: cs)

/-- Go `time.atoi(s)` (the package's own routine, not `strconv.Atoi`): an
optional sign, then `leadingInt` which must consume the whole string; on two
characters it accepts two digits as well as a sign and one digit. -/
def timeAtoi (s : List Char) : Option Int :=
  let signed : Bool × List Char :=
    match s with
    | c :: cs => if c = '-' ∨ c = '+' then (c == '-', cs) else (false, c :: cs)
    | [] => (false, [])
  match leadingInt signed.2 0 with
  | none => none
  | some (q, rem) =>
    if rem ≠ [] then none
    else if signed.1 then some (int64 (-(int64 q))) else some (int64 q)

/-- Go `time.skip(value, "/")`: the value must start with the slash of the
layout, which is dropped. -/
def skipSlash (value : List Char) : Option (List Char) :=
  match value with
  | c :: rest => if c = '/' then some rest else none
  | [] => none

/-- Go `time.daysBefore`: days in a non-leap year before each month begins,
with a final entry for the whole year. -/
def daysBefore : List Int := [0, 31, 59, 90, 120, 151, 181, 212, 243, 273, 304, 334, 365]

/-- Go `time.isLeap(year)`; `%` of Go truncates, as `Int.tmod` does. -/
def isLeap (year : Int) : Bool :=
  decide (year.tmod 4 = 0) && (decide (year.tmod 100 ≠ 0) || decide (year.tmod 400 = 0))

/-- Go `time.daysIn(m, year)`. -/
def daysIn (m : Int) (year : Int) : Int :=
  if m = 2 ∧ isLeap year = true then 29
  else daysBefore.getD m.toNat 0 - daysBefore.getD (m - 1).toNat 0

/-- A calendar date: the `year`, `month`, `day` that `time.Parse` hands to
`time.Date`. -/
structure Civil where
  year : Int
  month : Int
  day : Int
  deriving DecidableEq, Repr

/-- Go `time.Parse("06/01/02", value)` up to the call of `Date`: the chunks of
the layout are `stdYear`, "/", `stdZeroMonth`, "/", `stdZeroDay`; then no text
may remain and the day must exist in the month.  The year chunk takes the
first two bytes and converts them with `atoi` (a number from 69 on is a year
19YY, a smaller one 20YY); month and day take two digits each with `getnum`.
`none` stands for a non-nil error. -/
def parseLayout (value : List Char) : Option Civil :=
  if value.length < 2 then none
  else
    (timeAtoi (value.take 2)).bind fun y =>
    (skipSlash (value.drop 2)).bind fun v1 =>
    (getnum v1 true).bind fun month =>
    if month.1 ≤ 0 ∨ 12 < month.1 then none
    else
      (skipSlash month.2).bind fun v3 =>
      (getnum v3 true).bind fun day =>
      if day.2 ≠ [] then none
      else if day.1 < 1 ∨ day.1 > daysIn month.1 (if y ≥ 69 then y + 1900 else y + 2000) then none
      else some ⟨if y ≥ 69 then y + 1900 else y + 2000, month.1, day.1⟩

/-- A Go `time.Time` without monotonic clock reading, in UTC: seconds since
January 1 of year 1 (`t.sec()`) and nanoseconds within the second. -/
structure Time where
  sec : Int
  nsec : Int
  deriving DecidableEq, Repr

/-- Go `time.absoluteZeroYear`. -/
def absoluteZeroYear : Int := -292277022399

/-- Go `time.absoluteToInternal`, `(absoluteZeroYear - 1) * 365.2425 * 86400`. -/
def absoluteToInternal : Int := -9223371966579724800

/-- Go `time.unixToInternal`, the seconds from year 1 to 1970. -/
def unixToInternal : Int := 62135596800

/-- Go `time.internalToUnix`. -/
def internalToUnix : Int := -unixToInternal

/-- Go `time.norm(hi, lo, base)`: carry `lo` into `hi` until `0 ≤ lo < base`. -/
def norm (hi lo base : Int) : Int × Int :=
  let r1 : Int × Int :=
    if lo < 0 then
      let n := (-lo - 1).tdiv base + 1
      (hi - n, lo + n * base)
    else (hi, lo)
  if r1.2 ≥ base then
    let n := r1.2.tdiv base
    (r1.1 + n, r1.2 - n * base)
  else r1

/-- Go `time.daysSinceEpoch(year)`: days from the absolute epoch to the start
of `year`, in `uint64` arithmetic. -/
def daysSinceEpoch (year : Int) : Int :=
  let y := uint64 (int64 year - absoluteZeroYear)
  let n := y / 400
  let y := y - 400 * n
  let d := 146097 * n
  let n := y / 100
  let y := y - 100 * n
  let d := d + 36524 * n
  let n := y / 4
  let y := y - 4 * n
  let d := d + 1461 * n
  let n := y
  uint64 (d + 365 * n)

/-- Go `time.Date(year, month, day, 0, 0, 0, 0, time.UTC)`; with a zero time of
day the normalisation of nanoseconds, seconds, minutes and hours changes
nothing and is left out. -/
def Date (year month day : Int) : Time :=
  let ym := norm year (month - 1) 12
  let year := ym.1
  let month := ym.2 + 1
  let d := daysSinceEpoch year
  let d := d + daysBefore.getD (month - 1).toNat 0
  let d := if isLeap year = true ∧ month ≥ 3 then d + 1 else d
  let d := uint64 (d + uint64 (day - 1))
  let abs := uint64 (d * 86400)
  let unix := int64 (int64 abs + (absoluteToInternal + internalToUnix))
  ⟨int64 (unix + unixToInternal), 0⟩

/-- Go `time.Parse("06/01/02", value)`: a value without zone information is
interpreted in UTC. -/
def Parse (value : String) : Option Time :=
  match parseLayout value.toList with
  | none => none
  | some c => some (Date c.year c.month c.day)

/-- Go `t.Sub(u)` as a count of nanoseconds: the difference, saturated to the
range of `time.Duration` (an `int64`). -/
def Sub (t u : Time) : Int :=
  let d := (t.sec - u.sec) * 1000000000 + (t.nsec - u.nsec)
  if -9223372036854775808 ≤ d ∧ d ≤ 9223372036854775807 then d
  else if t.sec < u.sec ∨ (t.sec = u.sec ∧ t.nsec < u.nsec) then -9223372036854775808
  else 9223372036854775807

/-- Go `d.Hours()`: `float64(hour) + float64(nsec)/(60*60*1e9)` for the whole
hours `hour` and the remaining nanoseconds `nsec` of the duration. -/
def Hours (d : Int) : ℚ :=
  let hour := d.tdiv 3600000000000
  let nsec := d.tmod 3600000000000
  fadd (ofInt hour) (fdiv (ofInt nsec) (60 * 60 * 1000000000))

/-- Go `t.After(u)`. -/
def After (t u : Time) : Bool :=
  decide (t.sec > u.sec) || (decide (t.sec = u.sec) && decide (t.nsec > u.nsec))

/-! ## `convertDateStringToExcel` -/

/-- Source `convertDateStringToExcel` (main.go 49-80): parse with layout
"06/01/02" (0 on error), take the days since 1900-01-01, add 1, and add 1 more
when the date is after 1900-02-28. -/
def convertDateStringToExcel (dateStr : String) : ℚ :=
  match Parse dateStr with
  | none => 0
  | some t =>
    let baseDate := Date 1900 1 1
    let duration := Sub t baseDate
    let days := fdiv (Hours duration) 24
    let excelDate := fadd days 1
    let feb28_1900 := Date 1900 2 28
    if After t feb28_1900 = true then fadd excelDate 1 else excelDate

/-! ## The calendar of the claims -/

/-- Gregorian leap years. -/
def isLeapYear (year : Int) : Bool :=
  decide (year % 4 = 0) && (decide (year % 100 ≠ 0) || decide (year % 400 = 0))

/-- The number of days of a month of the Gregorian calendar. -/
def monthLength (year month : Int) : Int :=
  if month = 2 then (if isLeapYear year = true then 29 else 28)
  else if month = 4 ∨ month = 6 ∨ month = 9 ∨ month = 11 then 30
  else 31

/-- The calendar date that follows a given one. -/
def nextDay (c : Civil) : Civil :=
  if c.day < monthLength c.year c.month then ⟨c.year, c.month, c.day + 1⟩
  else if c.month < 12 then ⟨c.year, c.month + 1, 1⟩
  else ⟨c.year + 1, 1, 1⟩

/-- The date `n` days after `c`. -/
def addDays (n : Nat) (c : Civil) : Civil := Nat.iterate nextDay n c

/-- Calendar order on dates: by year, then month, then day. -/
def Civil.before (a b : Civil) : Prop :=
  a.year < b.year ∨ (a.year = b.year ∧ (a.month < b.month ∨ (a.month = b.month ∧ a.day < b.day)))

/-- The month and day fields of a date string: both slashes present, all four
characters digits, the month 1 to 12 and the day existing in that month of
`year`. -/
def monthDayOk (year : Int) (s1 m1 m2 s2 d1 d2 : Char) : Bool :=
  decide (s1 = '/') && decide (s2 = '/') &&
  m1.isDigit && m2.isDigit && d1.isDigit && d2.isDigit &&
  decide (1 ≤ twoDigits m1 m2) && decide (twoDigits m1 m2 ≤ 12) &&
  decide (1 ≤ twoDigits d1 d2) &&
  decide (twoDigits d1 d2 ≤ monthLength year (twoDigits m1 m2))

/-- The claim's "valid two-digit-year YY/MM/DD calendar date": two digits, a
slash, two digits, a slash, two digits, where the month is 1 to 12 and the day
exists in that month of the year 19YY (YY from 69) or 20YY (YY to 68). -/
def isValidYYMMDD (s : List Char) : Bool :=
  match s with
  | [y1, y2, s1, m1, m2, s2, d1, d2] =>
    y1.isDigit && y2.isDigit &&
    monthDayOk (if twoDigits y1 y2 ≥ 69 then 1900 + twoDigits y1 y2 else 2000 + twoDigits y1 y2)
      s1 m1 m2 s2 d1 d2
  | _ => false

/-- A date string whose year field is a sign and one digit, as in "+5/01/02"
(year 2005) or "-5/01/02" (year 1995), with a valid month and day. -/
def isSignedYearDate (s : List Char) : Bool :=
  match s with
  | [sg, y, s1, m1, m2, s2, d1, d2] =>
    (decide (sg = '+') || decide (sg = '-')) && y.isDigit &&
    monthDayOk (if sg = '-' then 2000 - ((y.toNat - 48 : Nat) : Int)
        else 2000 + ((y.toNat - 48 : Nat) : Int))
      s1 m1 m2 s2 d1 d2
  | _ => false

/-- Days in a non-leap year before month `month` begins. -/
def monthOffset (month : Int) : Int :=
  if month = 1 then 0 else if month = 2 then 31 else if month = 3 then 59
  else if month = 4 then 90 else if month = 5 then 120 else if month = 6 then 151
  else if month = 7 then 181 else if month = 8 then 212 else if month = 9 then 243
  else if month = 10 then 273 else if month = 11 then 304 else 334

/-- The day number of a calendar date: days elapsed since 0001-01-01 in the
proleptic Gregorian calendar. -/
def dayNumber (c : Civil) : Int :=
  365 * (c.year - 1) + (c.year - 1) / 4 - (c.year - 1) / 100 + (c.year - 1) / 400
    + monthOffset c.month + (if isLeapYear c.year = true ∧ c.month ≥ 3 then 1 else 0)
    + (c.day - 1)

/-- A date whose month is 1 to 12 and whose day exists in that month. -/
def Civil.Valid (c : Civil) : Prop :=
  1 ≤ c.month ∧ c.month ≤ 12 ∧ 1 ≤ c.day ∧ c.day ≤ monthLength c.year c.month

/-! ## The per-cell steps of `main`

`strconv.ParseFloat(value, 64)` is a parameter `pf` of the definitions below:
`pf value = none` stands for a non-nil error and `pf value = some v` for the
`float64` parsed, which may be a zero of either sign, an infinity or NaN.
`parseDecimal` is the plain decimal part of its grammar. -/

/-- A `float64` value: a finite number (`num 0` is the positive zero), the
negative zero, an infinity or NaN. -/
inductive F64 where
  | num (x : ℚ)
  | negZero
  | inf (neg : Bool)
  | nan
  deriving DecidableEq, Repr

/-- The `float64` nearest to a real number (round to nearest, ties to even) in
the exponent range of binary64: the unit in the last place is never below
`2^-1074`, a result of `2^1024` or more is an infinity, and a non-zero number
that rounds to zero keeps its sign. -/
def F64.round (x : ℚ) : F64 :=
  if x = 0 then F64.num 0
  else
    let e : Int := max (binExp x) (-1022)
    let ulp : ℚ := pow2 (e - 52)
    let m : ℚ := ((roundHalfEven (|x| / ulp) : Nat) : ℚ) * ulp
    if pow2 1024 ≤ m then F64.inf (decide (x < 0))
    else if m = 0 then (if x < 0 then F64.negZero else F64.num 0)
    else F64.num (if x < 0 then -m else m)

/-- The sign bit of a `float64`. -/
def F64.sign : F64 → Bool
  | F64.num x => decide (x < 0)
  | F64.negZero => true
  | F64.inf neg => neg
  | F64.nan => false

/-- The number a finite `float64` denotes; `none` for an infinity or NaN. -/
def F64.toRat : F64 → Option ℚ
  | F64.num x => some x
  | F64.negZero => some 0
  | F64.inf _ => none
  | F64.nan => none

/-- Go `x * y` on `float64` (IEEE 754): NaN if an operand is NaN or the product
is zero times infinity; otherwise the sign is the exclusive or of the signs,
an infinity times a non-zero value is an infinity, and a finite product is
rounded. -/
def F64.mul (a b : F64) : F64 :=
  match a.toRat, b.toRat with
  | some x, some y =>
    if x * y = 0 then (if xor a.sign b.sign then F64.negZero else F64.num 0)
    else F64.round (x * y)
  | some x, none =>
    if b = F64.nan ∨ x = 0 then F64.nan else F64.inf (xor a.sign b.sign)
  | none, some y =>
    if a = F64.nan ∨ y = 0 then F64.nan else F64.inf (xor a.sign b.sign)
  | none, none =>
    if a = F64.nan ∨ b = F64.nan then F64.nan else F64.inf (xor a.sign b.sign)



/-- Source constant `metersToFeet` (main.go 18), an untyped constant: its use in
a `float64` product converts it with `F64.round`. -/
def metersToFeet : ℚ := 328084 / 100000

/-- Source constant `metersToMiles` (main.go 19). -/
def metersToMiles : ℚ := 621371 / 1000000000

/-- Source constant `mpsToMph` (main.go 20). -/
def mpsToMph : ℚ := 223694 / 100000

/-- Source `feetColumns` (main.go 124). -/
def feetColumns : List String := ["exitAlt", "openAlt"]

/-- Source `milesColumns` (main.go 125). -/
def milesColumns : List String := ["exitDist", "openDist", "cpDist", "ffDist"]

/-- Source `mphColumns` (main.go 126). -/
def mphColumns : List String := ["ffAvgVSpd", "ffMaxVSpd", "cpAvgVSpd", "cpMaxVSpd"]

/-- Source `integerColumns` (main.go 191-196): a map from name to `true`; a
name that is not a key reads as `false`. -/
def integerColumns (colName : String) : Bool :=
  ["num", "ffSecs", "cpSecs", "cpAvgSpd", "cpMaxVSpd", "aircraftSecs"].contains colName

/-- The character of a decimal digit. -/
def digitChar (d : Nat) : Char := Char.ofNat (48 + d)

/-- The decimal digits of `n` without leading zeros ("0" for zero), by
repeated division in at most `fuel` steps. -/
def decDigits : Nat → Nat → List Char
  | 0, _ => []
  | fuel + 1, n =>
    if n < 10 then [digitChar n] else decDigits fuel (n / 10) ++ [digitChar (n % 10)]

/-- The last `p` decimal digits of `n`, with leading zeros. -/
def fixedDigits : Nat → Nat → List Char
  | 0, _ => []
  | p + 1, n => fixedDigits p (n / 10) ++ [digitChar (n % 10)]

/-- A non-negative number written with `prec` decimals: its value times
`10^prec` rounded to an integer (ties to even), the integer part in decimal,
then a point and `prec` digits when `prec` is positive. -/
def fmtMagnitude (prec : Nat) (q : ℚ) : List Char :=
  let scaled : Nat := roundHalfEven (q * (10 : ℚ) ^ prec)
  let intPart : Nat := scaled / 10 ^ prec
  if prec = 0 then decDigits (intPart + 1) intPart
  else decDigits (intPart + 1) intPart ++ '.' :: fixedDigits prec (scaled % 10 ^ prec)

/-- Go `fmt.Sprintf("%.<prec>f", x)` for a finite `x`: a minus sign for a
negative number, then the exact magnitude rounded to `prec` decimals (ties to
even), written with all `prec` decimals. -/
def fmtFixed (prec : Nat) (x : ℚ) : String :=
  String.mk (if x < 0 then '-' :: fmtMagnitude prec |x| else fmtMagnitude prec |x|)

/-- Go `fmt.Sprintf("%.<prec>f", v)` for any `float64`: "NaN", "+Inf" and "-Inf"
for the special values, a minus sign before the zeros of the negative zero. -/
def F64.format (prec : Nat) : F64 → String
  | F64.num x => fmtFixed prec x
  | F64.negZero => String.mk ('-' :: fmtMagnitude prec 0)
  | F64.inf neg => if neg then "-Inf" else "+Inf"
  | F64.nan => "NaN"

/-- Go `int(v)` for a `float64`: the fraction is discarded (truncation toward
zero); `none` when the result does not fit an `int` (also for an infinity or
NaN), where the language leaves the value to the implementation. -/
def floatToInt (v : F64) : Option Int :=
  match v.toRat with
  | some x =>
    let n : Int := x.num.tdiv (x.den : Int)
    if -9223372036854775808 ≤ n ∧ n ≤ 9223372036854775807 then some n else none
  | none => none

/-- The value handed to `SetCellValue` for one cell. -/
inductive Cell where
  | str (s : String)
  | int (n : Int)
  | intUnspecified
  | float (v : F64)
  deriving DecidableEq, Repr

/-- The unit conversion of one cell (main.go 141-181): an empty value is skipped;
the three loops over `feetColumns`, `milesColumns` and `mphColumns` run in
turn, each parsing the original `value` and overwriting `record[i]` when the
column is in its list and the value parses.  The result is the new
`record[i]`. -/
def convertValue (pf : String → Option F64) (colName value : String) : String :=
  if value = "" then value
  else
    let r0 : String := value
    let r1 : String :=
      if feetColumns.contains colName then
        match pf value with
        | some valueInMeters => F64.format 2 (F64.mul valueInMeters (F64.round metersToFeet))
        | none => r0
      else r0
    let r2 : String :=
      if milesColumns.contains colName then
        match pf value with
        | some valueInMeters => F64.format 3 (F64.mul valueInMeters (F64.round metersToMiles))
        | none => r1
      else r1
    if mphColumns.contains colName then
      match pf value with
      | some valueMps => F64.format 1 (F64.mul valueMps (F64.round mpsToMph))
      | none => r2
    else r2

/-- The cell written for one value of the processed record (main.go 184-236);
the time and date functions return finite numbers. -/
def writeCell (pf : String → Option F64) (colName value : String) : Cell :=
  if colName = "time" then Cell.float (F64.num (convertTimeStringToExcel value))
  else if colName = "date" then Cell.float (F64.num (convertDateStringToExcel value))
  else
    match pf value with
    | some floatVal =>
      if integerColumns colName = true then
        match floatToInt floatVal with
        | some intVal => Cell.int intVal
        | none => Cell.intUnspecified
      else Cell.float floatVal
    | none => Cell.str value

/-- The conversion loop over a record; `headers[i]` names column `i`, and the
CSV reader only yields records with as many fields as the header row. -/
def convertRecord (pf : String → Option F64) (headers record : List String) : List String :=
  List.zipWith (convertValue pf) headers record

/-- The row-writing loop over a record. -/
def writeRow (pf : String → Option F64) (headers record : List String) : List Cell :=
  List.zipWith (writeCell pf) headers record

/-- One iteration of the row loop of `main`: convert the record, then write it. -/
def processRow (pf : String → Option F64) (headers record : List String) : List Cell :=
  writeRow pf headers (convertRecord pf headers record)

/-- Digits of a decimal numeral as a number; `none` if a character is not a digit. -/
def digitsValue (s : List Char) : Option Nat := parseDigits s 0

/-- The sign and the exact magnitude of a plain decimal numeral: an optional
sign, digits with at most one point, at least one digit in all. -/
def readDecimal (cs : List Char) : Option (Bool × ℚ) :=
  let signed : Bool × List Char :=
    match cs with
    | c :: rest => if c = '-' then (true, rest) else if c = '+' then (false, rest) else (false, cs)
    | [] => (false, [])
  let ip := signed.2.takeWhile (fun c => c != '.')
  let fp := (signed.2.dropWhile (fun c => c != '.')).drop 1
  if ip.length + fp.length = 0 then none
  else
    match digitsValue ip, digitsValue fp with
    | some i, some f => some (signed.1, (i : ℚ) + (f : ℚ) / (10 : ℚ) ^ fp.length)
    | _, _ => none

/-- The plain decimal part of the grammar of `strconv.ParseFloat`: the nearest
`float64` of a numeral read by `readDecimal`, a zero with the sign written, and
an error for a numeral that rounds to an infinity.  Exponents, hexadecimal
forms, underscores, "inf" and "nan" are not covered. -/
def parseDecimal (s : String) : Option F64 :=
  match readDecimal s.toList with
  | none => none
  | some (neg, mag) =>
    if mag = 0 then some (if neg then F64.negZero else F64.num 0)
    else
      match F64.round (if neg then -mag else mag) with
      | F64.inf _ => none
      | v => some v

/-- Truncation toward zero: the floor of a non-negative number, the ceiling of
a negative one. -/
def truncTowardZero (x : ℚ) : Int := if 0 ≤ x then ⌊x⌋ else ⌈x⌉

/-! ## Lemmas on `float64` rounding -/

theorem pow2_eq_zpow (e : Int) : pow2 e = (2 : ℚ) ^ e := by
  unfold pow2
  by_cases h : 0 ≤ e
  · rw [if_pos h]
    obtain ⟨k, rfl⟩ := Int.eq_ofNat_of_zero_le h
    simp
  · rw [if_neg h]
    obtain ⟨k, hk⟩ := Int.eq_ofNat_of_zero_le (by omega : 0 ≤ -e)
    have he : e = -(k : Int) := by omega
    subst he
    simp

theorem pow2_pos (e : Int) : 0 < pow2 e := by
  rw [pow2_eq_zpow]; positivity

theorem pow2_add (a b : Int) : pow2 (a + b) = pow2 a * pow2 b := by
  simp only [pow2_eq_zpow]
  exact zpow_add₀ (by norm_num) a b

theorem pow2_natCast (k : Nat) : pow2 (k : Int) = ((2 ^ k : Nat) : ℚ) := by
  rw [pow2_eq_zpow]; simp

theorem pow2_le_pow2 (a b : Int) (h : a ≤ b) : pow2 a ≤ pow2 b := by
  simp only [pow2_eq_zpow]
  exact zpow_le_zpow_right₀ (by norm_num) h

theorem pow2_lt_pow2_iff (a b : Int) : pow2 a < pow2 b ↔ a < b := by
  simp only [pow2_eq_zpow]
  exact zpow_lt_zpow_iff_right₀ (by norm_num)

theorem abs_eq_natAbs_div (x : ℚ) : |x| = (x.num.natAbs : ℚ) / (x.den : ℚ) := by
  have h := Rat.num_div_den x
  have hd : (0 : ℚ) < x.den := by exact_mod_cast x.den_pos
  have e : (x.num.natAbs : ℚ) = |(x.num : ℚ)| := by
    rw [Nat.cast_natAbs, Int.cast_abs]
  rw [e, ← abs_of_pos hd, ← abs_div, h]

theorem log2Fuel_spec (fuel n : Nat) (hn : n ≠ 0) (hf : n ≤ fuel) :
    2 ^ log2Fuel fuel n ≤ n ∧ n < 2 ^ (log2Fuel fuel n + 1) := by
  induction fuel generalizing n with
  | zero => omega
  | succ f ih =>
    unfold log2Fuel
    by_cases h2 : 2 ≤ n
    · rw [if_pos h2]
      have hm : n / 2 ≠ 0 := by omega
      have hmf : n / 2 ≤ f := by omega
      obtain ⟨l, u⟩ := ih (n / 2) hm hmf
      constructor
      · rw [pow_succ]; omega
      · rw [pow_succ]; omega
    · rw [if_neg h2]
      have : n = 1 := by omega
      subst this
      norm_num

theorem natLog2_self_le (n : Nat) (hn : n ≠ 0) : 2 ^ natLog2 n ≤ n :=
  (log2Fuel_spec n n hn (le_refl n)).1

theorem lt_natLog2_self (n : Nat) (hn : n ≠ 0) : n < 2 ^ (natLog2 n + 1) :=
  (log2Fuel_spec n n hn (le_refl n)).2

theorem binExp_spec (x : ℚ) (hx : x ≠ 0) :
    pow2 (binExp x) ≤ |x| ∧ |x| < pow2 (binExp x + 1) := by
  have hn : x.num.natAbs ≠ 0 := by
    simpa [Int.natAbs_eq_zero] using hx
  have hd : x.den ≠ 0 := x.den_nz
  have hn1 := natLog2_self_le _ hn
  have hn2 := lt_natLog2_self _ hn
  have hd1 := natLog2_self_le _ hd
  have hd2 := lt_natLog2_self _ hd
  have hdpos : (0 : ℚ) < x.den := by exact_mod_cast x.den_pos
  have habs := abs_eq_natAbs_div x
  -- bounds in ℚ
  have qn1 : ((2 ^ natLog2 x.num.natAbs : Nat) : ℚ) ≤ x.num.natAbs := by exact_mod_cast hn1
  have qn2 : (x.num.natAbs : ℚ) < ((2 ^ (natLog2 x.num.natAbs + 1) : Nat) : ℚ) := by
    exact_mod_cast hn2
  have qd1 : ((2 ^ natLog2 x.den : Nat) : ℚ) ≤ x.den := by exact_mod_cast hd1
  have qd2 : (x.den : ℚ) < ((2 ^ (natLog2 x.den + 1) : Nat) : ℚ) := by exact_mod_cast hd2
  rw [← pow2_natCast] at qn1 qn2 qd1 qd2
  have lower : pow2 ((natLog2 x.num.natAbs : Int) - (natLog2 x.den : Int) - 1) ≤ |x| := by
    rw [habs, le_div_iff₀ hdpos]
    have e : pow2 ((natLog2 x.num.natAbs : Int) - (natLog2 x.den : Int) - 1)
        * pow2 ((natLog2 x.den + 1 : Nat) : Int) = pow2 (natLog2 x.num.natAbs : Int) := by
      rw [← pow2_add]; congr 1; push_cast; ring
    calc pow2 ((natLog2 x.num.natAbs : Int) - (natLog2 x.den : Int) - 1) * (x.den : ℚ)
        ≤ pow2 ((natLog2 x.num.natAbs : Int) - (natLog2 x.den : Int) - 1)
            * pow2 ((natLog2 x.den + 1 : Nat) : Int) :=
          mul_le_mul_of_nonneg_left (le_of_lt qd2) (le_of_lt (pow2_pos _))
      _ = pow2 (natLog2 x.num.natAbs : Int) := e
      _ ≤ x.num.natAbs := qn1
  have upper : |x| < pow2 ((natLog2 x.num.natAbs : Int) - (natLog2 x.den : Int) + 1) := by
    rw [habs, div_lt_iff₀ hdpos]
    have e : pow2 ((natLog2 x.num.natAbs : Int) - (natLog2 x.den : Int) + 1)
        * pow2 ((natLog2 x.den : Nat) : Int) = pow2 ((natLog2 x.num.natAbs + 1 : Nat) : Int) := by
      rw [← pow2_add]; congr 1; push_cast; ring
    calc (x.num.natAbs : ℚ) < pow2 ((natLog2 x.num.natAbs + 1 : Nat) : Int) := qn2
      _ = pow2 ((natLog2 x.num.natAbs : Int) - (natLog2 x.den : Int) + 1)
            * pow2 ((natLog2 x.den : Nat) : Int) := e.symm
      _ ≤ pow2 ((natLog2 x.num.natAbs : Int) - (natLog2 x.den : Int) + 1) * (x.den : ℚ) :=
          mul_le_mul_of_nonneg_left qd1 (le_of_lt (pow2_pos _))
  unfold binExp
  simp only
  by_cases hc : pow2 ((natLog2 x.num.natAbs : Int) - (natLog2 x.den : Int)) ≤ |x|
  · rw [if_pos hc]
    exact ⟨hc, upper⟩
  · rw [if_neg hc]
    refine ⟨lower, ?_⟩
    rw [sub_add_cancel]
    exact lt_of_not_le hc

theorem roundHalfEven_natCast (n : Nat) : roundHalfEven (n : ℚ) = n := by
  simp [roundHalfEven]

theorem roundHalfEven_cases (q : ℚ) (hq : 0 ≤ q) :
    ∃ (f : Nat) (r : ℚ), q = (f : ℚ) + r ∧ 0 ≤ r ∧ r < 1 ∧
      ((r < 1 / 2 ∧ roundHalfEven q = f) ∨
       (1 / 2 < r ∧ roundHalfEven q = f + 1) ∨
       (r = 1 / 2 ∧ f % 2 = 0 ∧ roundHalfEven q = f) ∨
       (r = 1 / 2 ∧ f % 2 = 1 ∧ roundHalfEven q = f + 1)) := by
  have hfl : q.num / (q.den : Int) = ⌊q⌋ := Rat.floor_def.symm
  have hf0 : 0 ≤ ⌊q⌋ := Int.floor_nonneg.mpr hq
  obtain ⟨f, hf⟩ := Int.eq_ofNat_of_zero_le hf0
  have h1 : (⌊q⌋ : ℚ) ≤ q := Int.floor_le q
  have h2 : q < (⌊q⌋ : ℚ) + 1 := Int.lt_floor_add_one q
  rw [hf] at h1 h2
  simp only [Int.cast_natCast] at h1 h2
  refine ⟨f, q - (f : ℚ), by ring, by linarith, by linarith, ?_⟩
  unfold roundHalfEven
  simp only [hfl, hf, Int.cast_natCast, Int.toNat_ofNat]
  by_cases c1 : q - (f : ℚ) < 1 / 2
  · left; exact ⟨c1, by rw [if_pos c1]⟩
  · by_cases c2 : 1 / 2 < q - (f : ℚ)
    · right; left; exact ⟨c2, by rw [if_neg c1, if_pos c2]⟩
    · have c3 : q - (f : ℚ) = 1 / 2 := le_antisymm (not_lt.mp c2) (not_lt.mp c1)
      by_cases c4 : (f : Int) % 2 = 0
      · right; right; left
        exact ⟨c3, by omega, by rw [if_neg c1, if_neg c2, if_pos c4]⟩
      · right; right; right
        exact ⟨c3, by omega, by rw [if_neg c1, if_neg c2, if_neg c4]⟩

theorem roundHalfEven_err (q : ℚ) (hq : 0 ≤ q) :
    |((roundHalfEven q : Nat) : ℚ) - q| ≤ 1 / 2 := by
  obtain ⟨f, r, hqr, hr0, hr1, h⟩ := roundHalfEven_cases q hq
  rw [abs_le]
  rcases h with ⟨hr, e⟩ | ⟨hr, e⟩ | ⟨hr, _, e⟩ | ⟨hr, _, e⟩ <;> rw [e, hqr] <;> push_cast <;>
    constructor <;> linarith

theorem roundHalfEven_mono (a b : ℚ) (ha : 0 ≤ a) (hab : a ≤ b) :
    roundHalfEven a ≤ roundHalfEven b := by
  obtain ⟨fa, ra, hqa, ha0, ha1, hca⟩ := roundHalfEven_cases a ha
  obtain ⟨fb, rb, hqb, hb0, hb1, hcb⟩ := roundHalfEven_cases b (le_trans ha hab)
  have hf : fa ≤ fb := by
    by_contra hlt
    have : fb + 1 ≤ fa := by omega
    have : ((fb + 1 : Nat) : ℚ) ≤ (fa : ℚ) := by exact_mod_cast this
    push_cast at this
    linarith
  rcases Nat.eq_or_lt_of_le hf with heq | hlt
  · subst heq
    have hr : ra ≤ rb := by linarith
    rcases hca with ⟨h1, e1⟩ | ⟨h1, e1⟩ | ⟨h1, p1, e1⟩ | ⟨h1, p1, e1⟩ <;>
      rcases hcb with ⟨h2, e2⟩ | ⟨h2, e2⟩ | ⟨h2, p2, e2⟩ | ⟨h2, p2, e2⟩ <;>
      rw [e1, e2] <;> first | omega | (exfalso; linarith)
  · have ua : roundHalfEven a ≤ fa + 1 := by
      rcases hca with ⟨_, e1⟩ | ⟨_, e1⟩ | ⟨_, _, e1⟩ | ⟨_, _, e1⟩ <;> rw [e1] <;> omega
    have lb : fb ≤ roundHalfEven b := by
      rcases hcb with ⟨_, e2⟩ | ⟨_, e2⟩ | ⟨_, _, e2⟩ | ⟨_, _, e2⟩ <;> rw [e2] <;> omega
    omega

theorem roundF64_pos_eq (x : ℚ) (hx : 0 < x) :
    roundF64 x =
      ((roundHalfEven (x / pow2 (binExp x - 52)) : Nat) : ℚ) * pow2 (binExp x - 52) := by
  unfold roundF64
  rw [if_neg (ne_of_gt hx)]
  simp only [abs_of_pos hx]
  rw [if_neg (not_lt.mpr (le_of_lt hx))]

theorem roundF64_neg (x : ℚ) : roundF64 (-x) = -roundF64 x := by
  by_cases hx : x = 0
  · subst hx; simp [roundF64]
  · have hb : binExp (-x) = binExp x := by
      simp [binExp]
    unfold roundF64
    rw [if_neg (neg_ne_zero.mpr hx), if_neg hx]
    simp only [hb, abs_neg]
    rcases lt_or_gt_of_ne hx with h | h
    · rw [if_neg (by linarith), if_pos h, neg_neg]
    · rw [if_pos (by linarith), if_neg (by linarith)]

theorem roundF64_nonneg (x : ℚ) (hx : 0 ≤ x) : 0 ≤ roundF64 x := by
  rcases eq_or_lt_of_le hx with h | h
  · rw [← h]; simp [roundF64]
  · rw [roundF64_pos_eq x h]
    exact mul_nonneg (Nat.cast_nonneg _) (le_of_lt (pow2_pos _))

theorem binExp_le_of_lt (x : ℚ) (hx : 0 < x) (k : Int) (h : x < pow2 k) : binExp x + 1 ≤ k := by
  have hs := (binExp_spec x (ne_of_gt hx)).1
  rw [abs_of_pos hx] at hs
  have : pow2 (binExp x) < pow2 k := lt_of_le_of_lt hs h
  have := (pow2_lt_pow2_iff _ _).mp this
  omega

theorem pow2_mul_cancel (e : Int) (k : Nat) (hk : (k : Int) = -e) :
    pow2 e * ((2 ^ k : Nat) : ℚ) = 1 := by
  rw [← pow2_natCast, ← pow2_add, hk]
  have : e + -e = 0 := by ring
  rw [this]
  simp [pow2]

theorem roundF64_le_natCast (x : ℚ) (B : Nat) (hx : 0 ≤ x) (hxB : x ≤ B)
    (hB : B < 2 ^ 53) : roundF64 x ≤ B := by
  rcases eq_or_lt_of_le hx with h0 | hpos
  · rw [← h0]
    have : roundF64 0 = 0 := by simp [roundF64]
    rw [this]; exact Nat.cast_nonneg _
  · have hlt : x < pow2 53 := by
      have h53 : pow2 53 = ((2 ^ 53 : Nat) : ℚ) := pow2_natCast 53
      have : (B : ℚ) < ((2 ^ 53 : Nat) : ℚ) := by exact_mod_cast hB
      rw [h53]
      linarith
    have he := binExp_le_of_lt x hpos 53 hlt
    obtain ⟨k, hk⟩ := Int.eq_ofNat_of_zero_le (by omega : 0 ≤ -(binExp x - 52))
    have hc := pow2_mul_cancel (binExp x - 52) k hk.symm
    have hu := pow2_pos (binExp x - 52)
    rw [roundF64_pos_eq x hpos]
    have hBu : (B : ℚ) / pow2 (binExp x - 52) = ((B * 2 ^ k : Nat) : ℚ) := by
      rw [div_eq_iff (ne_of_gt hu)]
      push_cast
      have : ((2 : ℚ) ^ k) * pow2 (binExp x - 52) = 1 := by
        have := hc; push_cast at this; linarith
      calc (B : ℚ) = B * 1 := by ring
        _ = B * ((2 : ℚ) ^ k * pow2 (binExp x - 52)) := by rw [this]
        _ = B * 2 ^ k * pow2 (binExp x - 52) := by ring
    have hmono := roundHalfEven_mono (x / pow2 (binExp x - 52)) ((B : ℚ) / pow2 (binExp x - 52))
      (div_nonneg hx (le_of_lt hu)) (div_le_div_of_nonneg_right hxB (le_of_lt hu))
    rw [hBu, roundHalfEven_natCast] at hmono
    have : ((roundHalfEven (x / pow2 (binExp x - 52)) : Nat) : ℚ) ≤ ((B * 2 ^ k : Nat) : ℚ) := by
      exact_mod_cast hmono
    calc ((roundHalfEven (x / pow2 (binExp x - 52)) : Nat) : ℚ) * pow2 (binExp x - 52)
        ≤ ((B * 2 ^ k : Nat) : ℚ) * pow2 (binExp x - 52) :=
          mul_le_mul_of_nonneg_right this (le_of_lt hu)
      _ = (B : ℚ) := by rw [← hBu]; field_simp

theorem roundF64_natCast (n : Nat) (hn : n < 2 ^ 53) : roundF64 (n : ℚ) = n := by
  rcases Nat.eq_zero_or_pos n with h0 | hpos
  · subst h0; simp [roundF64]
  · have hx : (0 : ℚ) < n := by exact_mod_cast hpos
    have hlt : (n : ℚ) < pow2 53 := by
      have h53 : pow2 53 = ((2 ^ 53 : Nat) : ℚ) := pow2_natCast 53
      have : (n : ℚ) < ((2 ^ 53 : Nat) : ℚ) := by exact_mod_cast hn
      rw [h53]; exact this
    have he := binExp_le_of_lt (n : ℚ) hx 53 hlt
    obtain ⟨k, hk⟩ := Int.eq_ofNat_of_zero_le (by omega : 0 ≤ -(binExp (n : ℚ) - 52))
    have hc := pow2_mul_cancel (binExp (n : ℚ) - 52) k hk.symm
    have hu := pow2_pos (binExp (n : ℚ) - 52)
    rw [roundF64_pos_eq _ hx]
    have hBu : (n : ℚ) / pow2 (binExp (n : ℚ) - 52) = ((n * 2 ^ k : Nat) : ℚ) := by
      rw [div_eq_iff (ne_of_gt hu)]
      push_cast
      have : ((2 : ℚ) ^ k) * pow2 (binExp (n : ℚ) - 52) = 1 := by
        have := hc; push_cast at this; linarith
      calc (n : ℚ) = n * 1 := by ring
        _ = n * ((2 : ℚ) ^ k * pow2 (binExp (n : ℚ) - 52)) := by rw [this]
        _ = n * 2 ^ k * pow2 (binExp (n : ℚ) - 52) := by ring
    rw [hBu, roundHalfEven_natCast, ← hBu]
    field_simp

theorem roundF64_intCast (n : Int) (h1 : -9007199254740992 < n) (h2 : n < 9007199254740992) :
    roundF64 (n : ℚ) = n := by
  have p53 : (2 : Nat) ^ 53 = 9007199254740992 := by norm_num
  rcases le_or_lt 0 n with hn | hn
  · obtain ⟨k, rfl⟩ := Int.eq_ofNat_of_zero_le hn
    have : k < 2 ^ 53 := by rw [p53]; omega
    simpa using roundF64_natCast k this
  · obtain ⟨k, hk⟩ := Int.eq_ofNat_of_zero_le (by omega : 0 ≤ -n)
    have e : n = -(k : Int) := by omega
    have : k < 2 ^ 53 := by rw [p53]; omega
    subst e
    have := roundF64_natCast k this
    push_cast
    rw [roundF64_neg, this]

theorem roundF64_err (x : ℚ) : |roundF64 x - x| ≤ |x| * pow2 (-53) := by
  have key : ∀ y : ℚ, 0 < y → |roundF64 y - y| ≤ y * pow2 (-53) := by
    intro y hy
    have hu := pow2_pos (binExp y - 52)
    have hs := (binExp_spec y (ne_of_gt hy)).1
    rw [abs_of_pos hy] at hs
    rw [roundF64_pos_eq y hy]
    have herr := roundHalfEven_err (y / pow2 (binExp y - 52)) (div_nonneg (le_of_lt hy) (le_of_lt hu))
    have e : ((roundHalfEven (y / pow2 (binExp y - 52)) : Nat) : ℚ) * pow2 (binExp y - 52) - y
        = (((roundHalfEven (y / pow2 (binExp y - 52)) : Nat) : ℚ) - y / pow2 (binExp y - 52))
            * pow2 (binExp y - 52) := by
      field_simp
    rw [e, abs_mul, abs_of_pos hu]
    have hup : pow2 (binExp y - 52) * (1 / 2) ≤ y * pow2 (-53) := by
      have e1 : pow2 (binExp y - 52) = pow2 (binExp y) * pow2 (-52) := by
        rw [← pow2_add]; congr 1
      have e2 : pow2 (-52) * (1 / 2) = pow2 (-53) := by
        have h1 : pow2 (-1) = 1 / 2 := by simp [pow2]
        rw [← h1, ← pow2_add]; congr 1
      rw [e1, mul_assoc, e2]
      exact mul_le_mul_of_nonneg_right hs (le_of_lt (pow2_pos _))
    calc |((roundHalfEven (y / pow2 (binExp y - 52)) : Nat) : ℚ) - y / pow2 (binExp y - 52)|
          * pow2 (binExp y - 52)
        ≤ (1 / 2) * pow2 (binExp y - 52) := mul_le_mul_of_nonneg_right herr (le_of_lt hu)
      _ = pow2 (binExp y - 52) * (1 / 2) := by ring
      _ ≤ y * pow2 (-53) := hup
  rcases lt_trichotomy x 0 with h | h | h
  · have := key (-x) (by linarith)
    rw [roundF64_neg] at this
    rw [abs_of_neg h]
    have e : -roundF64 x - -x = -(roundF64 x - x) := by ring
    rw [e, abs_neg] at this
    exact this
  · subst h; simp [roundF64]
  · rw [abs_of_pos h]; exact key x h

theorem roundF64_one_tenth :
    roundF64 (1 / 10) = 3602879701896397 / 36028797018963968 := by decide!

theorem roundF64_tie_to_even :
    roundF64 9007199254740993 = 9007199254740992 ∧
    roundF64 9007199254740995 = 9007199254740996 := by
  constructor <;> decide!

theorem pow2_sub_natCast (a b : Int) (k : Nat) (hk : (k : Int) = a - b) :
    pow2 a = ((2 ^ k : Nat) : ℚ) * pow2 b := by
  rw [← pow2_natCast, ← pow2_add, hk]
  congr 1
  ring

theorem roundF64_le_dyadic (x : ℚ) (n : Nat) (j : Int) (hx : 0 ≤ x)
    (hxB : x ≤ (n : ℚ) * pow2 j) (hn : n < 2 ^ 53) : roundF64 x ≤ (n : ℚ) * pow2 j := by
  rcases eq_or_lt_of_le hx with h0 | hpos
  · rw [← h0]
    have : roundF64 0 = 0 := by simp [roundF64]
    rw [this]
    exact mul_nonneg (Nat.cast_nonneg _) (le_of_lt (pow2_pos _))
  · have hlt : x < pow2 (53 + j) := by
      have h53 : pow2 53 = ((2 ^ 53 : Nat) : ℚ) := pow2_natCast 53
      have : (n : ℚ) < ((2 ^ 53 : Nat) : ℚ) := by exact_mod_cast hn
      rw [pow2_add, h53]
      calc x ≤ (n : ℚ) * pow2 j := hxB
        _ < ((2 ^ 53 : Nat) : ℚ) * pow2 j := mul_lt_mul_of_pos_right this (pow2_pos _)
    have he := binExp_le_of_lt x hpos (53 + j) hlt
    obtain ⟨k, hk⟩ := Int.eq_ofNat_of_zero_le (by omega : 0 ≤ j - (binExp x - 52))
    have hj := pow2_sub_natCast j (binExp x - 52) k hk.symm
    have hu := pow2_pos (binExp x - 52)
    rw [roundF64_pos_eq x hpos]
    have hBu : (n : ℚ) * pow2 j / pow2 (binExp x - 52) = ((n * 2 ^ k : Nat) : ℚ) := by
      rw [div_eq_iff (ne_of_gt hu), hj]
      push_cast
      ring
    have hmono := roundHalfEven_mono (x / pow2 (binExp x - 52))
      ((n : ℚ) * pow2 j / pow2 (binExp x - 52))
      (div_nonneg hx (le_of_lt hu)) (div_le_div_of_nonneg_right hxB (le_of_lt hu))
    rw [hBu, roundHalfEven_natCast] at hmono
    have : ((roundHalfEven (x / pow2 (binExp x - 52)) : Nat) : ℚ) ≤ ((n * 2 ^ k : Nat) : ℚ) := by
      exact_mod_cast hmono
    calc ((roundHalfEven (x / pow2 (binExp x - 52)) : Nat) : ℚ) * pow2 (binExp x - 52)
        ≤ ((n * 2 ^ k : Nat) : ℚ) * pow2 (binExp x - 52) :=
          mul_le_mul_of_nonneg_right this (le_of_lt hu)
      _ = (n : ℚ) * pow2 j := by rw [← hBu]; field_simp

theorem pow2_binExp_le_roundF64 (x : ℚ) (hx : 0 < x) : pow2 (binExp x) ≤ roundF64 x := by
  have hs := (binExp_spec x (ne_of_gt hx)).1
  rw [abs_of_pos hx] at hs
  have hu := pow2_pos (binExp x - 52)
  have hj := pow2_sub_natCast (binExp x) (binExp x - 52) 52 (by push_cast; ring)
  rw [roundF64_pos_eq x hx]
  have hq : ((2 ^ 52 : Nat) : ℚ) ≤ x / pow2 (binExp x - 52) := by
    rw [le_div_iff₀ hu, ← hj]; exact hs
  have hmono := roundHalfEven_mono _ _ (Nat.cast_nonneg _) hq
  rw [roundHalfEven_natCast] at hmono
  have : ((2 ^ 52 : Nat) : ℚ) ≤ ((roundHalfEven (x / pow2 (binExp x - 52)) : Nat) : ℚ) := by
    exact_mod_cast hmono
  rw [hj]
  exact mul_le_mul_of_nonneg_right this (le_of_lt hu)

theorem dyadic_le_roundF64 (x : ℚ) (n : Nat) (j : Int) (hx : 0 < x)
    (hB : (n : ℚ) * pow2 j ≤ x) (hn : n < 2 ^ 53) : (n : ℚ) * pow2 j ≤ roundF64 x := by
  have hu := pow2_pos (binExp x - 52)
  by_cases hc : binExp x - 52 ≤ j
  · obtain ⟨k, hk⟩ := Int.eq_ofNat_of_zero_le (by omega : 0 ≤ j - (binExp x - 52))
    have hj := pow2_sub_natCast j (binExp x - 52) k hk.symm
    rw [roundF64_pos_eq x hx]
    have hBu : (n : ℚ) * pow2 j / pow2 (binExp x - 52) = ((n * 2 ^ k : Nat) : ℚ) := by
      rw [div_eq_iff (ne_of_gt hu), hj]
      push_cast
      ring
    have hmono := roundHalfEven_mono ((n : ℚ) * pow2 j / pow2 (binExp x - 52))
      (x / pow2 (binExp x - 52))
      (div_nonneg (mul_nonneg (Nat.cast_nonneg _) (le_of_lt (pow2_pos _))) (le_of_lt hu))
      (div_le_div_of_nonneg_right hB (le_of_lt hu))
    rw [hBu, roundHalfEven_natCast] at hmono
    have : ((n * 2 ^ k : Nat) : ℚ) ≤ ((roundHalfEven (x / pow2 (binExp x - 52)) : Nat) : ℚ) := by
      exact_mod_cast hmono
    calc (n : ℚ) * pow2 j = ((n * 2 ^ k : Nat) : ℚ) * pow2 (binExp x - 52) := by
          rw [← hBu]; field_simp
      _ ≤ ((roundHalfEven (x / pow2 (binExp x - 52)) : Nat) : ℚ) * pow2 (binExp x - 52) :=
          mul_le_mul_of_nonneg_right this (le_of_lt hu)
  · have h1 : (n : ℚ) * pow2 j ≤ pow2 (53 + j) := by
      have h53 : pow2 53 = ((2 ^ 53 : Nat) : ℚ) := pow2_natCast 53
      have : (n : ℚ) ≤ ((2 ^ 53 : Nat) : ℚ) := by exact_mod_cast (le_of_lt hn)
      rw [pow2_add, h53]
      exact mul_le_mul_of_nonneg_right this (le_of_lt (pow2_pos _))
    have h2 : pow2 (53 + j) ≤ pow2 (binExp x) := pow2_le_pow2 _ _ (by omega)
    exact le_trans (le_trans h1 h2) (pow2_binExp_le_roundF64 x hx)

theorem roundF64_nonpos (x : ℚ) (hx : x ≤ 0) : roundF64 x ≤ 0 := by
  have h := roundF64_nonneg (-x) (by linarith)
  rw [roundF64_neg] at h
  linarith

theorem roundF64_le_of_le (x : ℚ) (z j : Int) (h1 : -9007199254740992 < z)
    (h2 : z < 9007199254740992) (h : x ≤ (z : ℚ) * pow2 j) : roundF64 x ≤ (z : ℚ) * pow2 j := by
  have p53 : (2 : Nat) ^ 53 = 9007199254740992 := by norm_num
  have hp := pow2_pos j
  rcases le_or_lt 0 z with hz | hz
  · obtain ⟨n, rfl⟩ := Int.eq_ofNat_of_zero_le hz
    have hn : n < 2 ^ 53 := by rw [p53]; omega
    simp only [Int.cast_natCast] at h ⊢
    rcases le_or_lt 0 x with hx | hx
    · exact roundF64_le_dyadic x n j hx h hn
    · exact le_trans (roundF64_nonpos x (le_of_lt hx))
        (mul_nonneg (Nat.cast_nonneg _) (le_of_lt hp))
  · obtain ⟨n, hn⟩ := Int.eq_ofNat_of_zero_le (by omega : 0 ≤ -z)
    have e : z = -(n : Int) := by omega
    have hn53 : n < 2 ^ 53 := by rw [p53]; omega
    have hnpos : (0 : ℚ) < n := by
      have : 0 < n := by omega
      exact_mod_cast this
    subst e
    simp only [Int.cast_neg, Int.cast_natCast, neg_mul] at h ⊢
    have hxneg : 0 < -x := by
      have := mul_pos hnpos hp
      linarith
    have := dyadic_le_roundF64 (-x) n j hxneg (by linarith) hn53
    rw [roundF64_neg] at this
    linarith

theorem le_roundF64_of_le (x : ℚ) (z j : Int) (h1 : -9007199254740992 < z)
    (h2 : z < 9007199254740992) (h : (z : ℚ) * pow2 j ≤ x) : (z : ℚ) * pow2 j ≤ roundF64 x := by
  have := roundF64_le_of_le (-x) (-z) j (by omega) (by omega) (by push_cast; linarith)
  rw [roundF64_neg] at this
  push_cast at this
  linarith
/-! ## Lemmas on splitting and integer parsing -/

theorem splitColon_ne_nil (s : List Char) : splitColon s ≠ [] := by
  cases s with
  | nil => simp [splitColon]
  | cons c cs =>
    simp only [splitColon]
    split
    · simp
    · split <;> simp

theorem splitColon_of_not_mem (s : List Char) (h : ':' ∉ s) : splitColon s = [s] := by
  induction s with
  | nil => rfl
  | cons c cs ih =>
    have hc : c ≠ ':' := fun e => h (by simp [e])
    have hcs : ':' ∉ cs := fun e => h (by simp [e])
    simp [splitColon, hc, ih hcs]

theorem splitColon_append (a b : List Char) (h : ':' ∉ a) :
    splitColon (a ++ ':' :: b) = a :: splitColon b := by
  induction a with
  | nil => simp [splitColon]
  | cons c cs ih =>
    have hc : c ≠ ':' := fun e => h (by simp [e])
    have hcs : ':' ∉ cs := fun e => h (by simp [e])
    simp [splitColon, hc, ih hcs]

theorem parseDigits_all_digits (s : List Char) (n m : Nat)
    (h : parseDigits s n = some m) : s.all Char.isDigit = true := by
  induction s generalizing n with
  | nil => rfl
  | cons c cs ih =>
    simp only [parseDigits, digitVal] at h
    by_cases hc : c.isDigit = true
    · simp only [hc, if_true] at h
      simp [hc, ih _ h]
    · simp [hc] at h

theorem colon_not_mem_of_all_digits (s : List Char) (h : s.all Char.isDigit = true) :
    ':' ∉ s := by
  intro hm
  have := (List.all_eq_true.mp h) ':' hm
  exact absurd this (by decide)

theorem parseUnsigned_all_digits (s : List Char) (m : Nat)
    (h : parseUnsigned s = some m) : s ≠ [] ∧ s.all Char.isDigit = true := by
  cases s with
  | nil => simp [parseUnsigned] at h
  | cons c cs => exact ⟨by simp, parseDigits_all_digits _ 0 m h⟩

theorem Atoi_isDecimalInteger (s : List Char) (v : Int) (h : Atoi s = some v) :
    isDecimalInteger s = true := by
  cases s with
  | nil => simp [Atoi] at h
  | cons c cs =>
    simp only [Atoi] at h
    by_cases h1 : c = '+'
    · simp only [h1, if_true] at h
      cases hp : parseUnsigned cs with
      | none => simp [hp] at h
      | some n =>
        obtain ⟨hne, hall⟩ := parseUnsigned_all_digits cs n hp
        cases cs with
        | nil => exact absurd rfl hne
        | cons d ds => simp [isDecimalInteger, h1, hall]
    · by_cases h2 : c = '-'
      · simp only [h2, if_true] at h
        cases hp : parseUnsigned cs with
        | none => simp [hp] at h
        | some n =>
          obtain ⟨hne, hall⟩ := parseUnsigned_all_digits cs n hp
          cases cs with
          | nil => exact absurd rfl hne
          | cons d ds => simp [isDecimalInteger, h2, hall]
      · simp only [h1, h2, if_false] at h
        cases hp : parseUnsigned (c :: cs) with
        | none => simp [hp] at h
        | some n =>
          obtain ⟨_, hall⟩ := parseUnsigned_all_digits (c :: cs) n hp
          simp only [isDecimalInteger, h1, h2, or_self, if_false]
          exact hall

theorem Atoi_colon_not_mem (s : List Char) (v : Int) (h : Atoi s = some v) : ':' ∉ s := by
  have hd := Atoi_isDecimalInteger s v h
  cases s with
  | nil => simp
  | cons c cs =>
    simp only [isDecimalInteger] at hd
    by_cases hs : c = '+' ∨ c = '-'
    · simp only [hs, if_true, Bool.and_eq_true] at hd
      have := colon_not_mem_of_all_digits cs hd.2
      rcases hs with hs | hs <;> simp [hs, this]
    · simp only [hs, if_false] at hd
      exact colon_not_mem_of_all_digits _ hd


theorem convertTime_cases (s : String) :
    (convertTimeStringToExcel s = 0 ∧
      ¬ ∃ p0 p1 H M, splitColon s.toList = [p0, p1] ∧ Atoi p0 = some H ∧ Atoi p1 = some M) ∨
    ∃ p0 p1 H M, splitColon s.toList = [p0, p1] ∧ Atoi p0 = some H ∧ Atoi p1 = some M ∧
      convertTimeStringToExcel s = fdiv (fadd (ofInt H) (fdiv (ofInt M) 60)) 24 := by
  unfold convertTimeStringToExcel
  generalize splitColon s.toList = l
  rcases l with _ | ⟨p0, _ | ⟨p1, _ | ⟨p2, r⟩⟩⟩
  · left; simp
  · left; simp
  · cases h0 : Atoi p0 with
    | none =>
      left
      refine ⟨by simp [h0], ?_⟩
      rintro ⟨q0, q1, H, M, hq, hH, _⟩
      simp only [List.cons.injEq, and_true] at hq
      rw [← hq.1, h0] at hH
      exact Option.noConfusion hH
    | some H =>
      cases h1 : Atoi p1 with
      | none =>
        left
        refine ⟨by simp [h0, h1], ?_⟩
        rintro ⟨q0, q1, H', M, hq, _, hM⟩
        simp only [List.cons.injEq, and_true] at hq
        rw [← hq.2, h1] at hM
        exact Option.noConfusion hM
      | some M =>
        right
        exact ⟨p0, p1, H, M, rfl, h0, h1, by simp [h0, h1]⟩
  · left; simp

theorem convertTime_of_parts (a b : String) (H M : Int)
    (ha : Atoi a.toList = some H) (hb : Atoi b.toList = some M) :
    convertTimeStringToExcel (a ++ ":" ++ b) = fdiv (fadd (ofInt H) (fdiv (ofInt M) 60)) 24 := by
  have hsplit : splitColon (a ++ ":" ++ b).toList = [a.toList, b.toList] := by
    have e : (a ++ ":" ++ b).toList = a.toList ++ ':' :: b.toList := by
      simp [String.toList, String.data_append]
    rw [e, splitColon_append _ _ (Atoi_colon_not_mem _ _ ha),
      splitColon_of_not_mem _ (Atoi_colon_not_mem _ _ hb)]
  simp only [convertTimeStringToExcel, hsplit, ha, hb]



theorem three_roundings (h X a s r u : ℚ) (hh : 0 ≤ h) (hX : 0 ≤ X) (hu0 : 0 ≤ u)
    (hu1 : u ≤ 1 / 8)
    (r1 : -(X * u) ≤ a - X ∧ a - X ≤ X * u)
    (r2 : -((h + a) * u) ≤ s - (h + a) ∧ s - (h + a) ≤ (h + a) * u)
    (r3 : -(s / 24 * u) ≤ r - s / 24 ∧ r - s / 24 ≤ s / 24 * u) :
    -((h + X) / 24 * (4 * u)) ≤ r - (h + X) / 24 ∧ r - (h + X) / 24 ≤ (h + X) / 24 * (4 * u) := by
  have phu : 0 ≤ h * u := mul_nonneg hh hu0
  have pXu : 0 ≤ X * u := mul_nonneg hX hu0
  have pXuu : 0 ≤ X * u * u := mul_nonneg pXu hu0
  have pXuuu : 0 ≤ X * u * u * u := mul_nonneg pXuu hu0
  have phuu : 0 ≤ h * u * u := mul_nonneg phu hu0
  have bXuu : X * u * u ≤ X * u * (1 / 8) := mul_le_mul_of_nonneg_left hu1 pXu
  have bXuuu : X * u * u * u ≤ X * u * u * (1 / 8) := mul_le_mul_of_nonneg_left hu1 pXuu
  have bhuu : h * u * u ≤ h * u * (1 / 8) := mul_le_mul_of_nonneg_left hu1 phu
  obtain ⟨r1l, r1u⟩ := r1
  obtain ⟨r2l, r2u⟩ := r2
  obtain ⟨r3l, r3u⟩ := r3
  have P1 : (h + a) * u ≤ (h + X + X * u) * u :=
    mul_le_mul_of_nonneg_right (by linarith) hu0
  have E1 : (h + X + X * u) * u = h * u + X * u + X * u * u := by ring
  have P1' : (h + X - X * u) * u ≤ (h + a) * u :=
    mul_le_mul_of_nonneg_right (by linarith) hu0
  have E1' : (h + X - X * u) * u = h * u + X * u - X * u * u := by ring
  have S1 : s ≤ h + X + h * u + 2 * (X * u) + X * u * u := by linarith
  have S2 : h + X - h * u - 2 * (X * u) - X * u * u ≤ s := by linarith
  have P2 : s * u ≤ (h + X + h * u + 2 * (X * u) + X * u * u) * u :=
    mul_le_mul_of_nonneg_right S1 hu0
  have E2 : (h + X + h * u + 2 * (X * u) + X * u * u) * u
      = h * u + X * u + h * u * u + 2 * (X * u * u) + X * u * u * u := by ring
  have E3 : s / 24 * u = s * u / 24 := by ring
  rw [E3] at r3l r3u
  constructor <;> linarith

theorem convertTime_accuracy (H M : Int) (hH : 0 ≤ H) (hH2 : H < 9007199254740992)
    (hM : 0 ≤ M) (hM2 : M < 9007199254740992) :
    |fdiv (fadd (ofInt H) (fdiv (ofInt M) 60)) 24 - ((H : ℚ) + (M : ℚ) / 60) / 24|
      ≤ ((H : ℚ) + (M : ℚ) / 60) / 24 * pow2 (-51) := by
  have eH : ofInt H = H := roundF64_intCast H (by omega) hH2
  have eM : ofInt M = M := roundF64_intCast M (by omega) hM2
  rw [eH, eM]
  simp only [fdiv, fadd]
  have hHq : (0 : ℚ) ≤ H := by exact_mod_cast hH
  have hMq : (0 : ℚ) ≤ M := by exact_mod_cast hM
  have hu0 : (0 : ℚ) < pow2 (-53) := pow2_pos _
  have hu1 : pow2 (-53) ≤ 1 / 8 := by
    have : pow2 (-53) ≤ pow2 (-3) := pow2_le_pow2 _ _ (by norm_num)
    have e : pow2 (-3) = 1 / 8 := by simp [pow2]
    rw [e] at this; exact this
  have h51 : pow2 (-51) = 4 * pow2 (-53) := by
    have e : pow2 2 = 4 := by simp [pow2]
    rw [← e, ← pow2_add]; congr 1
  have hX : (0 : ℚ) ≤ (M : ℚ) / 60 := by positivity
  have r1 := roundF64_err ((M : ℚ) / 60)
  rw [abs_of_nonneg hX, abs_le] at r1
  have a0 : 0 ≤ roundF64 ((M : ℚ) / 60) := roundF64_nonneg _ hX
  have hs0 : (0 : ℚ) ≤ (H : ℚ) + roundF64 ((M : ℚ) / 60) := by linarith
  have r2 := roundF64_err ((H : ℚ) + roundF64 ((M : ℚ) / 60))
  rw [abs_of_nonneg hs0, abs_le] at r2
  have s0 : 0 ≤ roundF64 ((H : ℚ) + roundF64 ((M : ℚ) / 60)) := roundF64_nonneg _ hs0
  have ht0 : (0 : ℚ) ≤ roundF64 ((H : ℚ) + roundF64 ((M : ℚ) / 60)) / 24 := by positivity
  have r3 := roundF64_err (roundF64 ((H : ℚ) + roundF64 ((M : ℚ) / 60)) / 24)
  rw [abs_of_nonneg ht0, abs_le] at r3
  rw [h51, abs_le]
  exact three_roundings _ _ _ _ _ _ hHq hX (le_of_lt hu0) hu1 r1 r2 r3

theorem pow2_zero : pow2 0 = 1 := by simp [pow2]

theorem pow2_neg_six : pow2 (-6) = 1 / 64 := by
  simp [pow2]

theorem pow2_neg_eleven : pow2 (-11) = 1 / 2048 := by
  simp [pow2]

theorem convertTime_formula_in_range (H M : Int) (hH1 : -35184372088832 ≤ H)
    (hH2 : H ≤ 35184372088832) (h0 : 0 ≤ 60 * H + M) (h1 : 60 * H + M ≤ 1440) :
    0 ≤ fdiv (fadd (ofInt H) (fdiv (ofInt M) 60)) 24 ∧
    fdiv (fadd (ofInt H) (fdiv (ofInt M) 60)) 24 ≤ 1 := by
  have eH : ofInt H = H := roundF64_intCast H (by omega) (by omega)
  rw [eH]
  simp only [fdiv, fadd, ofInt]
  have q0 : ((-(60 * H) : Int) : ℚ) ≤ (M : ℚ) := by exact_mod_cast (by omega : -(60 * H) ≤ M)
  have q1 : (M : ℚ) ≤ ((1440 - 60 * H : Int) : ℚ) := by
    exact_mod_cast (by omega : M ≤ 1440 - 60 * H)
  have m0 := le_roundF64_of_le (M : ℚ) (-(60 * H)) 0 (by omega) (by omega)
    (by rw [pow2_zero, mul_one]; exact q0)
  have m1 := roundF64_le_of_le (M : ℚ) (1440 - 60 * H) 0 (by omega) (by omega)
    (by rw [pow2_zero, mul_one]; exact q1)
  rw [pow2_zero, mul_one] at m0 m1
  push_cast at m0 m1
  have a0 := le_roundF64_of_le (roundF64 (M : ℚ) / 60) (-H) 0 (by omega) (by omega)
    (by rw [pow2_zero, mul_one]; push_cast; linarith)
  have a1 := roundF64_le_of_le (roundF64 (M : ℚ) / 60) (24 - H) 0 (by omega) (by omega)
    (by rw [pow2_zero, mul_one]; push_cast; linarith)
  rw [pow2_zero, mul_one] at a0 a1
  push_cast at a0 a1
  have s0 : 0 ≤ roundF64 ((H : ℚ) + roundF64 (roundF64 (M : ℚ) / 60)) :=
    roundF64_nonneg _ (by linarith)
  have s1 := roundF64_le_of_le ((H : ℚ) + roundF64 (roundF64 (M : ℚ) / 60)) 24 0
    (by norm_num) (by norm_num) (by rw [pow2_zero, mul_one]; push_cast; linarith)
  rw [pow2_zero, mul_one] at s1
  push_cast at s1
  have r0 : 0 ≤ roundF64 (roundF64 ((H : ℚ) + roundF64 (roundF64 (M : ℚ) / 60)) / 24) :=
    roundF64_nonneg _ (by positivity)
  have r1 := roundF64_le_of_le
    (roundF64 ((H : ℚ) + roundF64 (roundF64 (M : ℚ) / 60)) / 24) 1 0
    (by norm_num) (by norm_num) (by rw [pow2_zero, mul_one]; push_cast; linarith)
  rw [pow2_zero, mul_one] at r1
  push_cast at r1
  exact ⟨r0, r1⟩

theorem convertTime_formula_below (H M : Int) (hH1 : -35184372088832 ≤ H)
    (hH2 : H ≤ 35184372088832) (h : 60 * H + M ≤ -1) :
    fdiv (fadd (ofInt H) (fdiv (ofInt M) 60)) 24 < 0 := by
  have eH : ofInt H = H := roundF64_intCast H (by omega) (by omega)
  rw [eH]
  simp only [fdiv, fadd, ofInt]
  have q1 : (M : ℚ) ≤ ((-1 - 60 * H : Int) : ℚ) := by
    exact_mod_cast (by omega : M ≤ -1 - 60 * H)
  have m1 := roundF64_le_of_le (M : ℚ) (-1 - 60 * H) 0 (by omega) (by omega)
    (by rw [pow2_zero, mul_one]; exact q1)
  rw [pow2_zero, mul_one] at m1
  push_cast at m1
  have a1 := roundF64_le_of_le (roundF64 (M : ℚ) / 60) (-(64 * H + 1)) (-6) (by omega)
    (by omega) (by rw [pow2_neg_six]; push_cast; linarith)
  rw [pow2_neg_six] at a1
  push_cast at a1
  have s1 := roundF64_le_of_le ((H : ℚ) + roundF64 (roundF64 (M : ℚ) / 60)) (-1) (-6)
    (by norm_num) (by norm_num) (by rw [pow2_neg_six]; push_cast; linarith)
  rw [pow2_neg_six] at s1
  push_cast at s1
  have r1 := roundF64_le_of_le
    (roundF64 ((H : ℚ) + roundF64 (roundF64 (M : ℚ) / 60)) / 24) (-1) (-11)
    (by norm_num) (by norm_num) (by rw [pow2_neg_eleven]; push_cast; linarith)
  rw [pow2_neg_eleven] at r1
  push_cast at r1
  linarith

theorem convertTime_formula_above (H M : Int) (hH1 : -35184372088832 ≤ H)
    (hH2 : H ≤ 35184372088832) (h : 1441 ≤ 60 * H + M) :
    1 < fdiv (fadd (ofInt H) (fdiv (ofInt M) 60)) 24 := by
  have eH : ofInt H = H := roundF64_intCast H (by omega) (by omega)
  rw [eH]
  simp only [fdiv, fadd, ofInt]
  have q1 : ((1441 - 60 * H : Int) : ℚ) ≤ (M : ℚ) := by
    exact_mod_cast (by omega : 1441 - 60 * H ≤ M)
  have m1 := le_roundF64_of_le (M : ℚ) (1441 - 60 * H) 0 (by omega) (by omega)
    (by rw [pow2_zero, mul_one]; exact q1)
  rw [pow2_zero, mul_one] at m1
  push_cast at m1
  have a1 := le_roundF64_of_le (roundF64 (M : ℚ) / 60) (64 * (24 - H) + 1) (-6) (by omega)
    (by omega) (by rw [pow2_neg_six]; push_cast; linarith)
  rw [pow2_neg_six] at a1
  push_cast at a1
  have s1 := le_roundF64_of_le ((H : ℚ) + roundF64 (roundF64 (M : ℚ) / 60)) 1537 (-6)
    (by norm_num) (by norm_num) (by rw [pow2_neg_six]; push_cast; linarith)
  rw [pow2_neg_six] at s1
  push_cast at s1
  have r1 := le_roundF64_of_le
    (roundF64 ((H : ℚ) + roundF64 (roundF64 (M : ℚ) / 60)) / 24) 2049 (-11)
    (by norm_num) (by norm_num) (by rw [pow2_neg_eleven]; push_cast; linarith)
  rw [pow2_neg_eleven] at r1
  push_cast at r1
  linarith

theorem convertTime_formula_iff (H M : Int) (hH1 : -35184372088832 ≤ H)
    (hH2 : H ≤ 35184372088832) :
    (0 ≤ fdiv (fadd (ofInt H) (fdiv (ofInt M) 60)) 24 ∧
      fdiv (fadd (ofInt H) (fdiv (ofInt M) 60)) 24 ≤ 1) ↔
    (0 ≤ 60 * H + M ∧ 60 * H + M ≤ 1440) := by
  constructor
  · rintro ⟨r0, r1⟩
    constructor
    · by_contra hc
      have := convertTime_formula_below H M hH1 hH2 (by omega)
      linarith
    · by_contra hc
      have := convertTime_formula_above H M hH1 hH2 (by omega)
      linarith
  · rintro ⟨h0, h1⟩
    exact convertTime_formula_in_range H M hH1 hH2 h0 h1

theorem split_atoi_unique (s : String) (a b : List Char) (H0 M0 : Int)
    (hs : splitColon s.toList = [a, b]) (ha : Atoi a = some H0) (hb : Atoi b = some M0)
    (p0 p1 : List Char) (H M : Int) (hs2 : splitColon s.toList = [p0, p1])
    (hH : Atoi p0 = some H) (hM : Atoi p1 = some M) : H = H0 ∧ M = M0 := by
  rw [hs] at hs2
  simp only [List.cons.injEq, and_true] at hs2
  obtain ⟨rfl, rfl⟩ := hs2
  rw [ha] at hH; rw [hb] at hM
  cases hH; cases hM
  exact ⟨rfl, rfl⟩

theorem convertTime_formula_large_hour :
    60 * (9007199254740995 : Int) + (-540431955284458260) = 1440 ∧
    1 < fdiv (fadd (ofInt 9007199254740995) (fdiv (ofInt (-540431955284458260)) 60)) 24 := by
  constructor
  · norm_num
  · decide!

/-! ## Lemmas on the calendar arithmetic of package `time` -/

theorem isLeap_eq_isLeapYear (y : Int) (hy : 0 ≤ y) : isLeap y = isLeapYear y := by
  simp only [isLeap, isLeapYear, Int.tmod_eq_emod hy (by norm_num : (0 : Int) ≤ 4),
    Int.tmod_eq_emod hy (by norm_num : (0 : Int) ≤ 100),
    Int.tmod_eq_emod hy (by norm_num : (0 : Int) ≤ 400)]

theorem cycles_eq (z : Int) :
    146097 * ((z + 400 * 730692556) / 400)
      + 36524 * ((z + 400 * 730692556 - 400 * ((z + 400 * 730692556) / 400)) / 100)
      + 1461 * ((z + 400 * 730692556 - 400 * ((z + 400 * 730692556) / 400)
          - 100 * ((z + 400 * 730692556 - 400 * ((z + 400 * 730692556) / 400)) / 100)) / 4)
      + 365 * (z + 400 * 730692556 - 400 * ((z + 400 * 730692556) / 400)
          - 100 * ((z + 400 * 730692556 - 400 * ((z + 400 * 730692556) / 400)) / 100)
          - 4 * ((z + 400 * 730692556 - 400 * ((z + 400 * 730692556) / 400)
          - 100 * ((z + 400 * 730692556 - 400 * ((z + 400 * 730692556) / 400)) / 100)) / 4))
    = 106751990353932 + (365 * z + z / 4 - z / 100 + z / 400) := by
  have q400 : (z + 400 * 730692556) / 400 = 730692556 + z / 400 := by omega
  rw [q400]
  have r400 : z + 400 * 730692556 - 400 * (730692556 + z / 400) = z % 400 := by omega
  rw [r400]
  have q100 : z % 400 / 100 = z / 100 - 4 * (z / 400) := by omega
  have r100 : z % 400 - 100 * (z % 400 / 100) = z % 100 := by omega
  rw [r100]
  have q4 : z % 100 / 4 = z / 4 - 25 * (z / 100) := by omega
  have r4 : z % 100 - 4 * (z % 100 / 4) = z % 4 := by omega
  rw [r4, q100, q4]
  omega

theorem daysSinceEpoch_eq (y : Int) (h1 : 1 ≤ y) (h2 : y ≤ 1000000) :
    daysSinceEpoch y = 106751990353932 +
      (365 * (y - 1) + (y - 1) / 4 - (y - 1) / 100 + (y - 1) / 400) := by
  have e1 : int64 y = y := by simp only [int64]; omega
  have e2 : uint64 (y - absoluteZeroYear) = (y - 1) + 400 * 730692556 := by
    simp only [uint64, absoluteZeroYear]; omega
  have hc := cycles_eq (y - 1)
  simp only [daysSinceEpoch, e1, e2, hc]
  simp only [uint64]
  omega

theorem norm_month (y m : Int) (h1 : 1 ≤ m) (h2 : m ≤ 12) : norm y (m - 1) 12 = (y, m - 1) := by
  have a : ¬ (m - 1 < 0) := by omega
  have b : ¬ (m - 1 ≥ 12) := by omega
  simp [norm, a, b]

theorem daysBefore_getD (m : Int) (h1 : 1 ≤ m) (h2 : m ≤ 12) :
    daysBefore.getD (m - 1).toNat 0 = monthOffset m := by
  interval_cases m <;> rfl

theorem Date_sec (c : Civil) (hy1 : 1 ≤ c.year) (hy2 : c.year ≤ 1000000)
    (hm1 : 1 ≤ c.month) (hm2 : c.month ≤ 12) (hd1 : 1 ≤ c.day) (hd2 : c.day ≤ 31) :
    Date c.year c.month c.day = ⟨dayNumber c * 86400, 0⟩ := by
  have hoff : 0 ≤ monthOffset c.month ∧ monthOffset c.month ≤ 334 := by
    generalize c.month = m at hm1 hm2
    interval_cases m <;> simp [monthOffset]
  simp only [Date, norm_month _ _ hm1 hm2, sub_add_cancel, daysBefore_getD _ hm1 hm2,
    isLeap_eq_isLeapYear _ (by omega : (0 : Int) ≤ c.year), daysSinceEpoch_eq _ hy1 hy2,
    dayNumber]
  congr 1
  generalize monthOffset c.month = off at hoff
  simp only [uint64, int64, absoluteToInternal, internalToUnix, unixToInternal]
  split <;> omega

theorem leapDays_succ (y : Int) :
    y / 4 - y / 100 + y / 400 =
      (y - 1) / 4 - (y - 1) / 100 + (y - 1) / 400 + (if isLeapYear y = true then 1 else 0) := by
  by_cases h4 : y % 4 = 0 <;> by_cases h100 : y % 100 = 0 <;> by_cases h400 : y % 400 = 0 <;>
    simp [isLeapYear, h4, h100, h400] <;> omega

theorem monthOffset_succ (y m : Int) (hm1 : 1 ≤ m) (hm2 : m < 12) :
    monthOffset (m + 1) + (if isLeapYear y = true ∧ m + 1 ≥ 3 then 1 else 0) =
      monthOffset m + (if isLeapYear y = true ∧ m ≥ 3 then 1 else 0) + monthLength y m := by
  cases hleap : isLeapYear y <;> interval_cases m <;> simp [monthOffset, monthLength, hleap]

theorem dayNumber_nextDay (c : Civil) (hv : c.Valid) :
    dayNumber (nextDay c) = dayNumber c + 1 := by
  obtain ⟨y, m, d⟩ := c
  obtain ⟨hm1, hm2, hd1, hd2⟩ := hv
  simp only at hm1 hm2 hd1 hd2
  unfold nextDay
  simp only
  by_cases hlt : d < monthLength y m
  · rw [if_pos hlt]
    simp only [dayNumber]
    omega
  · rw [if_neg hlt]
    have hd : d = monthLength y m := by omega
    by_cases hm : m < 12
    · rw [if_pos hm]
      have h := monthOffset_succ y m hm1 hm
      simp only [dayNumber]
      omega
    · rw [if_neg hm]
      have hm12 : m = 12 := by omega
      subst hm12
      have hl := leapDays_succ y
      have hml : monthLength y 12 = 31 := by simp [monthLength]
      simp only [dayNumber, add_sub_cancel_right]
      have e1 : monthOffset 1 = 0 := by simp [monthOffset]
      have e2 : monthOffset 12 = 334 := by simp [monthOffset]
      rw [e1, e2]
      have e3 : (if isLeapYear (y + 1) = true ∧ (1 : Int) ≥ 3 then (1 : Int) else 0) = 0 := by
        simp
      rw [e3]
      cases hleap : isLeapYear y <;> simp [hleap] at hl ⊢ <;> omega

theorem monthLength_bounds (y m : Int) : 28 ≤ monthLength y m ∧ monthLength y m ≤ 31 := by
  unfold monthLength
  split_ifs <;> omega

theorem nextDay_valid (c : Civil) (hv : c.Valid) : (nextDay c).Valid := by
  obtain ⟨y, m, d⟩ := c
  obtain ⟨hm1, hm2, hd1, hd2⟩ := hv
  simp only at hm1 hm2 hd1 hd2
  unfold nextDay
  simp only
  by_cases hlt : d < monthLength y m
  · rw [if_pos hlt]
    exact ⟨hm1, hm2, by simp only; omega, by simp only; omega⟩
  · rw [if_neg hlt]
    by_cases hm : m < 12
    · rw [if_pos hm]
      have := monthLength_bounds y (m + 1)
      exact ⟨by simp only; omega, by simp only; omega, le_refl _, by simp only; omega⟩
    · rw [if_neg hm]
      have := monthLength_bounds (y + 1) 1
      exact ⟨le_refl _, by norm_num, le_refl _, by simp only; omega⟩

theorem cumDays_mono (y m k : Int) (hm1 : 1 ≤ m) (hmk : m ≤ k) (hk : k ≤ 12) :
    monthOffset m + (if isLeapYear y = true ∧ m ≥ 3 then 1 else 0) ≤
      monthOffset k + (if isLeapYear y = true ∧ k ≥ 3 then 1 else 0) := by
  revert hk
  refine Int.le_induction (m := m) (P := fun k => k ≤ 12 →
    monthOffset m + (if isLeapYear y = true ∧ m ≥ 3 then 1 else 0) ≤
      monthOffset k + (if isLeapYear y = true ∧ k ≥ 3 then 1 else 0)) ?_ ?_ k hmk
  · intro _; exact le_refl _
  · intro n hn ih hn12
    have h1 := ih (by omega)
    have h2 := monthOffset_succ y n (by omega) (by omega)
    have h3 := monthLength_bounds y n
    omega

theorem yearStart_lt (a b : Int) (h : a < b) :
    365 * (a - 1) + (a - 1) / 4 - (a - 1) / 100 + (a - 1) / 400 + 365
        + (if isLeapYear a = true then 1 else 0)
      ≤ 365 * (b - 1) + (b - 1) / 4 - (b - 1) / 100 + (b - 1) / 400 := by
  have hl := leapDays_succ a
  have hstep : a + 1 ≤ b := by omega
  refine Int.le_induction (m := a + 1) (P := fun b =>
    365 * (a - 1) + (a - 1) / 4 - (a - 1) / 100 + (a - 1) / 400 + 365
        + (if isLeapYear a = true then 1 else 0)
      ≤ 365 * (b - 1) + (b - 1) / 4 - (b - 1) / 100 + (b - 1) / 400) ?_ ?_ b hstep
  · simp only [add_sub_cancel_right]
    omega
  · intro n _ ih
    have hn := leapDays_succ n
    simp only [add_sub_cancel_right]
    have : (0 : Int) ≤ (if isLeapYear n = true then 1 else 0) := by split_ifs <;> omega
    omega

theorem dayOfYear_le (c : Civil) (hv : c.Valid) :
    monthOffset c.month + (if isLeapYear c.year = true ∧ c.month ≥ 3 then 1 else 0)
        + (c.day - 1)
      ≤ 364 + (if isLeapYear c.year = true then 1 else 0) ∧
    0 ≤ monthOffset c.month + (if isLeapYear c.year = true ∧ c.month ≥ 3 then 1 else 0) := by
  obtain ⟨y, m, d⟩ := c
  obtain ⟨hm1, hm2, hd1, hd2⟩ := hv
  simp only at hm1 hm2 hd1 hd2 ⊢
  have h12 := cumDays_mono y m 12 hm1 hm2 (le_refl _)
  have h1 := cumDays_mono y 1 m (le_refl _) hm1 hm2
  have e1 : monthOffset 1 = 0 := by simp [monthOffset]
  have e12 : monthOffset 12 = 334 := by simp [monthOffset]
  have hb := monthLength_bounds y m
  rw [e12] at h12
  rw [e1] at h1
  by_cases hm : m < 12
  · have hs := monthOffset_succ y m hm1 hm
    have h12' := cumDays_mono y (m + 1) 12 (by omega) (by omega) (le_refl _)
    rw [e12] at h12'
    cases hleap : isLeapYear y <;> simp [hleap] at h12 h12' h1 hs ⊢ <;> omega
  · have : m = 12 := by omega
    subst this
    have hml : monthLength y 12 = 31 := by simp [monthLength]
    cases hleap : isLeapYear y <;> simp [hleap, e12] at h1 ⊢ <;> omega

theorem dayNumber_lt_of_before (a b : Civil) (ha : a.Valid) (hb : b.Valid)
    (h : a.before b) : dayNumber a < dayNumber b := by
  have hda := dayOfYear_le a ha
  have hdb := dayOfYear_le b hb
  obtain ⟨_, _, hbd1, _⟩ := hb
  obtain ⟨ham1, ham2, had1, had2⟩ := ha
  simp only [dayNumber]
  rcases h with hy | ⟨hy, hm | ⟨hm, hd⟩⟩
  · have := yearStart_lt a.year b.year hy
    omega
  · have hs := monthOffset_succ a.year a.month ham1 (by omega)
    have hmono := cumDays_mono a.year (a.month + 1) b.month (by omega) (by omega) (by omega)
    rw [← hy]
    omega
  · rw [← hy, ← hm]
    omega

theorem before_trichotomy (a b : Civil) : a.before b ∨ a = b ∨ b.before a := by
  obtain ⟨y1, m1, d1⟩ := a
  obtain ⟨y2, m2, d2⟩ := b
  simp only [Civil.before, Civil.mk.injEq]
  omega

theorem dayNumber_injective (a b : Civil) (ha : a.Valid) (hb : b.Valid)
    (h : dayNumber a = dayNumber b) : a = b := by
  rcases before_trichotomy a b with h1 | h1 | h1
  · have := dayNumber_lt_of_before a b ha hb h1; omega
  · exact h1
  · have := dayNumber_lt_of_before b a hb ha h1; omega

theorem addDays_spec (n : Nat) (c : Civil) (hv : c.Valid) :
    (addDays n c).Valid ∧ dayNumber (addDays n c) = dayNumber c + n := by
  induction n with
  | zero => exact ⟨hv, by simp [addDays]⟩
  | succ k ih =>
    have e : addDays (k + 1) c = nextDay (addDays k c) := by
      simp only [addDays, Function.iterate_succ_apply']
    rw [e]
    refine ⟨nextDay_valid _ ih.1, ?_⟩
    rw [dayNumber_nextDay _ ih.1, ih.2]
    push_cast
    ring

theorem addDays_reaches (a c : Civil) (ha : a.Valid) (hc : c.Valid)
    (h : dayNumber a ≤ dayNumber c) :
    addDays (dayNumber c - dayNumber a).toNat a = c := by
  have hs := addDays_spec (dayNumber c - dayNumber a).toNat a ha
  apply dayNumber_injective _ _ hs.1 hc
  rw [hs.2, Int.toNat_of_nonneg (by omega)]
  ring

/-! ## Lemmas on the layout parse -/

theorem digit_sub_le (c : Char) (h : c.isDigit = true) : c.toNat - 48 ≤ 9 := by
  simp only [Char.isDigit, Bool.and_eq_true, decide_eq_true_eq] at h
  have h2 : c.val.toNat ≤ 57 := h.2
  simp only [Char.toNat]
  omega

theorem twoDigits_bounds (a b : Char) (ha : a.isDigit = true) (hb : b.isDigit = true) :
    0 ≤ twoDigits a b ∧ twoDigits a b ≤ 99 := by
  have h1 := digit_sub_le a ha
  have h2 := digit_sub_le b hb
  simp only [twoDigits]
  omega

theorem skipSlash_inv (s r : List Char) (h : skipSlash s = some r) : s = '/' :: r := by
  cases s with
  | nil => simp [skipSlash] at h
  | cons c cs =>
    simp only [skipSlash] at h
    by_cases hc : c = '/'
    · simp only [hc, if_true, Option.some.injEq] at h
      rw [hc, h]
    · simp [hc] at h

theorem getnum_fixed_inv (s : List Char) (p : Int × List Char) (h : getnum s true = some p) :
    ∃ a b, s = a :: b :: p.2 ∧ a.isDigit = true ∧ b.isDigit = true ∧ p.1 = twoDigits a b := by
  rcases s with _ | ⟨a, _ | ⟨b, rest⟩⟩
  · simp [getnum, isDigitAt] at h
  · simp [getnum, isDigitAt] at h
  · simp only [getnum, isDigitAt, List.get?_cons_zero, List.get?_cons_succ] at h
    by_cases ha : a.isDigit = true
    · by_cases hb : b.isDigit = true
      · simp only [ha, hb, Bool.not_true, Bool.false_eq_true, if_false, Option.some.injEq] at h
        subst h
        exact ⟨a, b, rfl, ha, hb, rfl⟩
      · simp [ha, hb] at h
    · simp [ha] at h

theorem leadingInt_one (b : Char) :
    leadingInt [b] 0 = if b.isDigit = true then some (b.toNat - 48, []) else some (0, [b]) := by
  by_cases hb : b.isDigit = true
  · have := digit_sub_le b hb
    have h1 : ¬ (b.toNat - 48 > 9223372036854775808) := by omega
    simp [leadingInt, hb, h1]
  · simp [leadingInt, hb]

theorem leadingInt_two (a b : Char) :
    leadingInt [a, b] 0 =
      if a.isDigit = true then
        (if b.isDigit = true then some ((a.toNat - 48) * 10 + (b.toNat - 48), [])
         else some (a.toNat - 48, [b]))
      else some (0, [a, b]) := by
  by_cases ha : a.isDigit = true
  · have h1 := digit_sub_le a ha
    have g1 : ¬ (a.toNat - 48 > 9223372036854775808) := by omega
    have g2 : ¬ (a.toNat - 48 > 9223372036854775808 / 10) := by omega
    by_cases hb : b.isDigit = true
    · have h2 := digit_sub_le b hb
      have g3 : ¬ ((a.toNat - 48) * 10 + (b.toNat - 48) > 9223372036854775808) := by omega
      simp [leadingInt, ha, hb, g1, g2, g3]
    · simp [leadingInt, ha, hb, g1]
  · simp [leadingInt, ha]

theorem int64_small (x : Int) (h1 : -100 ≤ x) (h2 : x ≤ 100) : int64 x = x := by
  simp only [int64]; omega

theorem timeAtoi_two (a b : Char) (y : Int) (h : timeAtoi [a, b] = some y) :
    (a.isDigit = true ∧ b.isDigit = true ∧ y = twoDigits a b) ∨
    (a = '+' ∧ b.isDigit = true ∧ y = ((b.toNat - 48 : Nat) : Int)) ∨
    (a = '-' ∧ b.isDigit = true ∧ y = -((b.toNat - 48 : Nat) : Int)) := by
  by_cases hm : a = '-'
  · right; right
    subst hm
    simp only [timeAtoi, true_or, if_true, leadingInt_one] at h
    by_cases hb : b.isDigit = true
    · have hd := digit_sub_le b hb
      simp only [hb, if_true, ne_eq, not_true_eq_false, if_false, beq_self_eq_true,
        Option.some.injEq] at h
      refine ⟨rfl, hb, ?_⟩
      rw [← h, int64_small ((b.toNat - 48 : Nat) : Int) (by omega) (by omega),
        int64_small _ (by omega) (by omega)]
    · simp [hb] at h
  · by_cases hp : a = '+'
    · right; left
      subst hp
      simp only [timeAtoi, or_true, if_true, leadingInt_one] at h
      by_cases hb : b.isDigit = true
      · have hd := digit_sub_le b hb
        simp only [hb, if_true, ne_eq, not_true_eq_false, if_false, Option.some.injEq] at h
        have hne : (('+' : Char) == '-') = false := by decide
        simp only [hne, Bool.false_eq_true, if_false, Option.some.injEq] at h
        refine ⟨rfl, hb, ?_⟩
        rw [← h, int64_small _ (by omega) (by omega)]
      · simp [hb] at h
    · left
      simp only [timeAtoi, hm, hp, or_self, if_false, leadingInt_two] at h
      by_cases ha : a.isDigit = true
      · by_cases hb : b.isDigit = true
        · have h1 := digit_sub_le a ha
          have h2 := digit_sub_le b hb
          simp only [ha, hb, if_true, ne_eq, not_true_eq_false, if_false, Bool.false_eq_true,
            Option.some.injEq] at h
          refine ⟨ha, hb, ?_⟩
          rw [← h, int64_small _ (by push_cast; omega) (by push_cast; omega)]
          simp only [twoDigits]
          push_cast
          rfl
        · simp [ha, hb] at h
      · simp [ha] at h

theorem daysIn_eq_monthLength (m y : Int) (hm1 : 1 ≤ m) (hm2 : m ≤ 12) (hy : 0 ≤ y) :
    daysIn m y = monthLength y m := by
  simp only [daysIn, isLeap_eq_isLeapYear y hy, monthLength]
  cases hleap : isLeapYear y <;> interval_cases m <;> simp [daysBefore]

theorem parseLayout_inv (s : List Char) (c : Civil) (h : parseLayout s = some c) :
    ∃ (a b m1 m2 d1 d2 : Char) (y : Int),
      s = [a, b, '/', m1, m2, '/', d1, d2] ∧ timeAtoi [a, b] = some y ∧
      m1.isDigit = true ∧ m2.isDigit = true ∧ d1.isDigit = true ∧ d2.isDigit = true ∧
      c = ⟨if y ≥ 69 then y + 1900 else y + 2000, twoDigits m1 m2, twoDigits d1 d2⟩ ∧
      1 ≤ twoDigits m1 m2 ∧ twoDigits m1 m2 ≤ 12 ∧ 1 ≤ twoDigits d1 d2 ∧
      twoDigits d1 d2 ≤ daysIn (twoDigits m1 m2) (if y ≥ 69 then y + 1900 else y + 2000) := by
  unfold parseLayout at h
  by_cases hlen : s.length < 2
  · rw [if_pos hlen] at h; cases h
  · rw [if_neg hlen] at h
    simp only [Option.bind_eq_some] at h
    obtain ⟨y, hy, v1, hv1, month, hmonth, h⟩ := h
    by_cases hmr : month.1 ≤ 0 ∨ 12 < month.1
    · rw [if_pos hmr] at h; cases h
    · rw [if_neg hmr] at h
      simp only [Option.bind_eq_some] at h
      obtain ⟨v3, hv3, day, hday, h⟩ := h
      by_cases hrest : day.2 ≠ []
      · rw [if_pos hrest] at h; cases h
      · rw [if_neg hrest] at h
        by_cases hdr : day.1 < 1 ∨
            day.1 > daysIn month.1 (if y ≥ 69 then y + 1900 else y + 2000)
        · rw [if_pos hdr] at h; cases h
        · rw [if_neg hdr] at h
          simp only [Option.some.injEq] at h
          rcases s with _ | ⟨a, _ | ⟨b, r⟩⟩
          · simp at hlen
          · simp at hlen
          · simp only [List.take_succ_cons, List.take_zero, List.drop_succ_cons,
              List.drop_zero] at hy hv1
            have e1 := skipSlash_inv _ _ hv1
            obtain ⟨m1, m2, e2, hm1, hm2, e3⟩ := getnum_fixed_inv _ _ hmonth
            have e4 := skipSlash_inv _ _ hv3
            obtain ⟨d1, d2, e5, hd1, hd2, e6⟩ := getnum_fixed_inv _ _ hday
            have e7 : day.2 = [] := by
              by_contra hne; exact hrest hne
            refine ⟨a, b, m1, m2, d1, d2, y, ?_, hy, hm1, hm2, hd1, hd2, ?_, ?_, ?_, ?_, ?_⟩
            · rw [e1, e2, e4, e5, e7]
            · rw [← h, e3, e6]
            · rw [← e3]; omega
            · rw [← e3]; omega
            · rw [← e6]; omega
            · rw [← e6, ← e3]; omega

theorem parseLayout_sound (s : List Char) (c : Civil) (h : parseLayout s = some c) :
    1969 ≤ c.year ∧ c.year ≤ 2068 ∧ c.Valid := by
  obtain ⟨a, b, m1, m2, d1, d2, y, _, hy, _, _, _, _, hc, h1, h2, h3, h4⟩ :=
    parseLayout_inv s c h
  have hyr : -9 ≤ y ∧ y ≤ 99 := by
    rcases timeAtoi_two a b y hy with ⟨ha, hb, e⟩ | ⟨_, hb, e⟩ | ⟨_, hb, e⟩
    · have := twoDigits_bounds a b ha hb; omega
    · have := digit_sub_le b hb; omega
    · have := digit_sub_le b hb; omega
  have hyear : 1969 ≤ (if y ≥ 69 then y + 1900 else y + 2000) ∧
      (if y ≥ 69 then y + 1900 else y + 2000) ≤ 2068 := by
    split_ifs <;> omega
  rw [daysIn_eq_monthLength _ _ h1 h2 (by omega)] at h4
  subst hc
  exact ⟨hyear.1, hyear.2, h1, h2, h3, h4⟩

/-! ## The value of `convertDateStringToExcel` -/

theorem dayNumber_base : dayNumber ⟨1900, 1, 1⟩ = 693595 := by decide

theorem dayNumber_feb28 : dayNumber ⟨1900, 2, 28⟩ = 693653 := by decide

theorem dayNumber_range (c : Civil) (hv : c.Valid) (h1 : 1969 ≤ c.year) (h2 : c.year ≤ 2068) :
    718797 ≤ dayNumber c ∧ dayNumber c ≤ 755322 := by
  have hd := dayOfYear_le c hv
  have : (0 : Int) ≤ (if isLeapYear c.year = true then 1 else 0) ∧
      (if isLeapYear c.year = true then 1 else 0) ≤ (1 : Int) := by split_ifs <;> omega
  obtain ⟨_, _, hd1, _⟩ := hv
  simp only [dayNumber]
  omega

theorem ofInt_small (n : Int) (h1 : -9007199254740992 < n) (h2 : n < 9007199254740992) :
    ofInt n = n :=
  roundF64_intCast n h1 h2

theorem Hours_of_days (n : Int) (hn : 0 ≤ n) (hn2 : n ≤ 1000000) :
    fdiv (Hours (n * 86400 * 1000000000)) 24 = n := by
  have e1 : (n * 86400 * 1000000000).tdiv 3600000000000 = 24 * n := by
    rw [Int.tdiv_eq_ediv (by omega) (by norm_num)]; omega
  have e2 : (n * 86400 * 1000000000).tmod 3600000000000 = 0 := by
    rw [Int.tmod_eq_emod (by omega) (by norm_num)]; omega
  have z : roundF64 0 = 0 := by simp [roundF64]
  have h24 : ofInt (24 * n) = ((24 * n : Int) : ℚ) :=
    ofInt_small _ (by omega) (by omega)
  have h0 : ofInt 0 = 0 := by simp [ofInt, z]
  simp only [Hours, e1, e2, h24, h0, fdiv, fadd, zero_div, z, add_zero]
  rw [roundF64_intCast _ (by omega) (by omega)]
  have e3 : ((24 * n : Int) : ℚ) / 24 = ((n : Int) : ℚ) := by push_cast; ring
  rw [e3]
  exact roundF64_intCast n (by omega) (by omega)

theorem fadd_one (n : Int) (hn : 0 ≤ n) (hn2 : n ≤ 1000000) :
    fadd (n : ℚ) 1 = ((n + 1 : Int) : ℚ) := by
  have e : (n : ℚ) + 1 = ((n + 1 : Int) : ℚ) := by push_cast; ring
  rw [fadd, e]
  exact roundF64_intCast _ (by omega) (by omega)

theorem convertDate_value (s : String) (c : Civil) (h : parseLayout s.toList = some c) :
    convertDateStringToExcel s = ((dayNumber c - 693595 + 2 : Int) : ℚ) := by
  obtain ⟨hy1, hy2, hv⟩ := parseLayout_sound _ _ h
  have hr := dayNumber_range c hv hy1 hy2
  have hb := monthLength_bounds c.year c.month
  have ht : Date c.year c.month c.day = ⟨dayNumber c * 86400, 0⟩ :=
    Date_sec c (by omega) (by omega) hv.1 hv.2.1 hv.2.2.1 (by have := hv.2.2.2; omega)
  have hbase : Date 1900 1 1 = ⟨693595 * 86400, 0⟩ := by
    have := Date_sec ⟨1900, 1, 1⟩ (by norm_num) (by norm_num) (by norm_num) (by norm_num)
      (by norm_num) (by norm_num)
    rw [dayNumber_base] at this
    exact this
  have hfeb : Date 1900 2 28 = ⟨693653 * 86400, 0⟩ := by
    have := Date_sec ⟨1900, 2, 28⟩ (by norm_num) (by norm_num) (by norm_num) (by norm_num)
      (by norm_num) (by norm_num)
    rw [dayNumber_feb28] at this
    exact this
  have hsub : Sub ⟨dayNumber c * 86400, 0⟩ ⟨693595 * 86400, 0⟩ =
      (dayNumber c - 693595) * 86400 * 1000000000 := by
    simp only [Sub]
    rw [if_pos (by constructor <;> omega)]
    ring
  have hafter : After ⟨dayNumber c * 86400, 0⟩ ⟨693653 * 86400, 0⟩ = true := by
    simp only [After, Bool.or_eq_true, decide_eq_true_eq]
    left; omega
  simp only [convertDateStringToExcel, Parse, h, ht, hbase, hfeb, hsub, hafter, if_true,
    Hours_of_days _ (by omega : (0 : Int) ≤ dayNumber c - 693595) (by omega)]
  rw [fadd_one _ (by omega) (by omega), fadd_one _ (by omega) (by omega)]
  congr 1
  ring

theorem convertDate_none (s : String) (h : parseLayout s.toList = none) :
    convertDateStringToExcel s = 0 := by
  simp only [convertDateStringToExcel, Parse, h]

theorem addDays_count (n : Nat) (a c : Civil) (ha : a.Valid) (h : addDays n a = c) :
    (n : Int) = dayNumber c - dayNumber a := by
  have hs := (addDays_spec n a ha).2
  rw [h] at hs
  omega

theorem digits_isValid_or_signed (s : List Char) (c : Civil) (h : parseLayout s = some c) :
    isValidYYMMDD s = true ∨ isSignedYearDate s = true := by
  obtain ⟨a, b, m1, m2, d1, d2, y, hs, hy, hm1, hm2, hd1, hd2, _, h1, h2, h3, h4⟩ :=
    parseLayout_inv s c h
  subst hs
  rcases timeAtoi_two a b y hy with ⟨ha, hb, e⟩ | ⟨ha, hb, e⟩ | ⟨ha, hb, e⟩
  · left
    have hbnd := twoDigits_bounds a b ha hb
    have hyear : (if twoDigits a b ≥ 69 then 1900 + twoDigits a b else 2000 + twoDigits a b)
        = (if y ≥ 69 then y + 1900 else y + 2000) := by
      rw [e]; split_ifs <;> omega
    have hy0 : (0 : Int) ≤ (if y ≥ 69 then y + 1900 else y + 2000) := by
      rw [e]; split_ifs <;> omega
    rw [daysIn_eq_monthLength _ _ h1 h2 hy0] at h4
    simp only [isValidYYMMDD, monthDayOk, hyear, ha, hb, hm1, hm2, hd1, hd2, h1, h2, h3, h4,
      decide_True, Bool.and_self]
  · right
    have hd := digit_sub_le b hb
    have hyear : (if a = '-' then 2000 - ((b.toNat - 48 : Nat) : Int)
        else 2000 + ((b.toNat - 48 : Nat) : Int)) = (if y ≥ 69 then y + 1900 else y + 2000) := by
      have hne : ¬ (a = '-') := by rw [ha]; decide
      rw [if_neg hne, e, if_neg (by omega)]
      omega
    have hy0 : (0 : Int) ≤ (if y ≥ 69 then y + 1900 else y + 2000) := by
      rw [e]; split_ifs <;> omega
    rw [daysIn_eq_monthLength _ _ h1 h2 hy0] at h4
    simp only [isSignedYearDate, monthDayOk, hyear, hb, hm1, hm2, hd1, hd2, h1, h2, h3, h4,
      decide_True, Bool.and_self, Bool.and_true]
    simp [ha]
  · right
    have hd := digit_sub_le b hb
    have hyear : (if a = '-' then 2000 - ((b.toNat - 48 : Nat) : Int)
        else 2000 + ((b.toNat - 48 : Nat) : Int)) = (if y ≥ 69 then y + 1900 else y + 2000) := by
      rw [if_pos ha, e, if_neg (by omega)]
      omega
    have hy0 : (0 : Int) ≤ (if y ≥ 69 then y + 1900 else y + 2000) := by
      rw [e]; split_ifs <;> omega
    rw [daysIn_eq_monthLength _ _ h1 h2 hy0] at h4
    simp only [isSignedYearDate, monthDayOk, hyear, hb, hm1, hm2, hd1, hd2, h1, h2, h3, h4,
      decide_True, Bool.and_self, Bool.and_true]
    simp [ha]

/-! ## Lemmas on the per-cell steps -/

theorem tdiv_eq_truncTowardZero (x : ℚ) : x.num.tdiv (x.den : Int) = truncTowardZero x := by
  unfold truncTowardZero
  by_cases hx : 0 ≤ x
  · rw [if_pos hx, Rat.floor_def]
    exact Int.tdiv_eq_ediv (Rat.num_nonneg.mpr hx) (by exact_mod_cast Nat.zero_le _)
  · rw [if_neg hx]
    have hneg : 0 ≤ -x := by linarith
    have h1 : ⌈x⌉ = -⌊-x⌋ := by rw [Int.floor_neg, neg_neg]
    rw [h1, Rat.floor_def, Rat.neg_num, Rat.neg_den]
    have h2 : 0 ≤ (-x).num := Rat.num_nonneg.mpr hneg
    rw [Rat.neg_num] at h2
    rw [← Int.tdiv_eq_ediv h2 (by exact_mod_cast Nat.zero_le _), Int.neg_tdiv, neg_neg]

theorem contains_iff_mem (l : List String) (a : String) : l.contains a = true ↔ a ∈ l := by
  simp

theorem convertValue_empty (pf : String → Option F64) (colName : String) :
    convertValue pf colName "" = "" := by
  simp [convertValue]

theorem convertValue_of_none (pf : String → Option F64) (colName value : String)
    (hp : pf value = none) : convertValue pf colName value = value := by
  unfold convertValue
  simp only [hp]
  split_ifs <;> rfl

theorem convertValue_other (pf : String → Option F64) (colName value : String)
    (h1 : colName ∉ feetColumns) (h2 : colName ∉ milesColumns) (h3 : colName ∉ mphColumns) :
    convertValue pf colName value = value := by
  simp [convertValue, h1, h2, h3]

theorem feet_not_others (colName : String) (h : colName ∈ feetColumns) :
    colName ∉ milesColumns ∧ colName ∉ mphColumns := by
  simp only [feetColumns, List.mem_cons, List.mem_singleton, List.not_mem_nil, or_false] at h
  rcases h with rfl | rfl <;> exact ⟨by decide, by decide⟩

theorem miles_not_others (colName : String) (h : colName ∈ milesColumns) :
    colName ∉ feetColumns ∧ colName ∉ mphColumns := by
  simp only [milesColumns, List.mem_cons, List.mem_singleton, List.not_mem_nil, or_false] at h
  rcases h with rfl | rfl | rfl | rfl <;> exact ⟨by decide, by decide⟩

theorem mph_not_others (colName : String) (h : colName ∈ mphColumns) :
    colName ∉ feetColumns ∧ colName ∉ milesColumns := by
  simp only [mphColumns, List.mem_cons, List.mem_singleton, List.not_mem_nil, or_false] at h
  rcases h with rfl | rfl | rfl | rfl <;> exact ⟨by decide, by decide⟩

theorem convertible_not_time_date (colName : String)
    (h : colName ∈ feetColumns ∨ colName ∈ milesColumns ∨ colName ∈ mphColumns) :
    colName ≠ "time" ∧ colName ≠ "date" := by
  simp only [feetColumns, milesColumns, mphColumns, List.mem_cons, List.mem_singleton,
    List.not_mem_nil, or_false] at h
  rcases h with (rfl | rfl) | (rfl | rfl | rfl | rfl) | (rfl | rfl | rfl | rfl) <;>
    exact ⟨by decide, by decide⟩

theorem convertValue_feet (pf : String → Option F64) (colName value : String) (V : F64)
    (hne : value ≠ "") (hp : pf value = some V) (h : colName ∈ feetColumns) :
    convertValue pf colName value = F64.format 2 (F64.mul V (F64.round metersToFeet)) := by
  obtain ⟨h2, h3⟩ := feet_not_others colName h
  simp [convertValue, hne, hp, h, h2, h3]

theorem convertValue_miles (pf : String → Option F64) (colName value : String) (V : F64)
    (hne : value ≠ "") (hp : pf value = some V) (h : colName ∈ milesColumns) :
    convertValue pf colName value = F64.format 3 (F64.mul V (F64.round metersToMiles)) := by
  obtain ⟨h2, h3⟩ := miles_not_others colName h
  simp [convertValue, hne, hp, h, h2, h3]

theorem convertValue_mph (pf : String → Option F64) (colName value : String) (V : F64)
    (hne : value ≠ "") (hp : pf value = some V) (h : colName ∈ mphColumns) :
    convertValue pf colName value = F64.format 1 (F64.mul V (F64.round mpsToMph)) := by
  obtain ⟨h2, h3⟩ := mph_not_others colName h
  simp [convertValue, hne, hp, h, h2, h3]

theorem writeCell_of_none (pf : String → Option F64) (colName value : String)
    (ht : colName ≠ "time") (hd : colName ≠ "date") (hp : pf value = none) :
    writeCell pf colName value = Cell.str value := by
  simp [writeCell, ht, hd, hp]

theorem processRow_length (pf : String → Option F64) (headers record : List String)
    (hlen : headers.length = record.length) :
    (processRow pf headers record).length = record.length := by
  simp [processRow, writeRow, convertRecord, List.length_zipWith, hlen]

theorem processRow_getElem? (pf : String → Option F64) (headers record : List String) (i : Nat)
    (colName value : String) (hh : headers[i]? = some colName) (hr : record[i]? = some value) :
    (processRow pf headers record)[i]? =
      some (writeCell pf colName (convertValue pf colName value)) := by
  simp [processRow, writeRow, convertRecord, List.getElem?_zipWith, hh, hr]

/-! ## Lemmas on the decimal digits written by `fmtFixed` -/

theorem digitChar_props (d : Nat) (hd : d < 10) :
    digitVal (digitChar d) = some d ∧ (digitChar d != '.') = true ∧
    digitChar d ≠ '-' ∧ digitChar d ≠ '+' := by
  interval_cases d <;> decide

theorem parseDigits_append (l1 l2 : List Char) (a : Nat) :
    parseDigits (l1 ++ l2) a = (parseDigits l1 a).bind (fun v => parseDigits l2 v) := by
  induction l1 generalizing a with
  | nil => rfl
  | cons c cs ih =>
    simp only [List.cons_append, parseDigits]
    cases digitVal c with
    | none => rfl
    | some d => exact ih _

theorem parseDigits_snoc_digit (l : List Char) (v d : Nat) (hd : d < 10)
    (h : parseDigits l 0 = some v) :
    parseDigits (l ++ [digitChar d]) 0 = some (v * 10 + d) := by
  rw [parseDigits_append, h]
  simp [parseDigits, (digitChar_props d hd).1]

theorem decDigits_spec (fuel n : Nat) (h : n < fuel) :
    parseDigits (decDigits fuel n) 0 = some n ∧
    (∀ c ∈ decDigits fuel n, (c != '.') = true) ∧
    ∃ c rest, decDigits fuel n = c :: rest ∧ c ≠ '-' ∧ c ≠ '+' := by
  induction fuel generalizing n with
  | zero => omega
  | succ f ih =>
    unfold decDigits
    by_cases h10 : n < 10
    · rw [if_pos h10]
      obtain ⟨p1, p2, p3, p4⟩ := digitChar_props n h10
      refine ⟨by simp [parseDigits, p1], ?_, digitChar n, [], rfl, p3, p4⟩
      intro c hc
      simp only [List.mem_singleton] at hc
      rw [hc]; exact p2
    · rw [if_neg h10]
      obtain ⟨q1, q2, c, rest, q3, q4, q5⟩ := ih (n / 10) (by omega)
      obtain ⟨p1, p2, _, _⟩ := digitChar_props (n % 10) (by omega)
      refine ⟨?_, ?_, c, rest ++ [digitChar (n % 10)], by rw [q3]; rfl, q4, q5⟩
      · rw [parseDigits_snoc_digit _ _ _ (by omega) q1]
        congr 1; omega
      · intro x hx
        rcases List.mem_append.mp hx with hx | hx
        · exact q2 x hx
        · simp only [List.mem_singleton] at hx
          rw [hx]; exact p2

theorem fixedDigits_spec (p n : Nat) :
    parseDigits (fixedDigits p n) 0 = some (n % 10 ^ p) ∧
    (fixedDigits p n).length = p ∧ ∀ c ∈ fixedDigits p n, (c != '.') = true := by
  induction p generalizing n with
  | zero => simp [fixedDigits, parseDigits, Nat.mod_one]
  | succ k ih =>
    obtain ⟨q1, q2, q3⟩ := ih (n / 10)
    obtain ⟨_, p2, _, _⟩ := digitChar_props (n % 10) (by omega)
    unfold fixedDigits
    refine ⟨?_, by simp [q2], ?_⟩
    · rw [parseDigits_snoc_digit _ _ _ (by omega) q1]
      congr 1
      have h1 : n % (10 ^ k * 10) = n % 10 + 10 * (n / 10 % 10 ^ k) := by
        rw [Nat.mul_comm (10 ^ k) 10, Nat.mod_mul]
      rw [pow_succ, h1]
      omega
    · intro x hx
      rcases List.mem_append.mp hx with hx | hx
      · exact q3 x hx
      · simp only [List.mem_singleton] at hx
        rw [hx]; exact p2

theorem readDecimal_digits (D1 D2 : List Char) (i f : Nat) (neg : Bool)
    (h1 : parseDigits D1 0 = some i) (h2 : parseDigits D2 0 = some f)
    (hd1 : ∀ c ∈ D1, (c != '.') = true)
    (hne : ∃ c rest, D1 = c :: rest ∧ c ≠ '-' ∧ c ≠ '+') :
    readDecimal (if neg then '-' :: (D1 ++ (if D2 = [] then [] else '.' :: D2))
      else D1 ++ (if D2 = [] then [] else '.' :: D2))
      = some (neg, (i : ℚ) + (f : ℚ) / (10 : ℚ) ^ D2.length) := by
  obtain ⟨c, rest, hD1, hc1, hc2⟩ := hne
  have htake : (D1 ++ (if D2 = [] then [] else '.' :: D2)).takeWhile (fun c => c != '.') = D1 := by
    rw [List.takeWhile_append_of_pos hd1]
    by_cases hD2 : D2 = []
    · simp [hD2]
    · simp [hD2]
  have hdrop : ((D1 ++ (if D2 = [] then [] else '.' :: D2)).dropWhile
      (fun c => c != '.')).drop 1 = D2 := by
    rw [List.dropWhile_append_of_pos hd1]
    by_cases hD2 : D2 = []
    · simp [hD2]
    · simp [hD2]
  have hlen : ¬ (D1.length + D2.length = 0) := by
    rw [hD1]; simp
  have hsigned : (match (if neg then '-' :: (D1 ++ (if D2 = [] then [] else '.' :: D2))
        else D1 ++ (if D2 = [] then [] else '.' :: D2)) with
      | c :: rest => if c = '-' then (true, rest)
        else if c = '+' then (false, rest)
        else (false, (if neg then '-' :: (D1 ++ (if D2 = [] then [] else '.' :: D2))
          else D1 ++ (if D2 = [] then [] else '.' :: D2)))
      | [] => (false, []))
      = (neg, D1 ++ (if D2 = [] then [] else '.' :: D2)) := by
    cases neg with
    | true => simp
    | false =>
      simp only [Bool.false_eq_true, if_false]
      rw [hD1]
      simp [hc1, hc2]
  unfold readDecimal
  simp only [hsigned, htake, hdrop, hlen, if_false, digitsValue, h1, h2]

theorem fmtMagnitude_eq (prec : Nat) (q : ℚ) :
    fmtMagnitude prec q =
      decDigits (roundHalfEven (q * (10 : ℚ) ^ prec) / 10 ^ prec + 1)
          (roundHalfEven (q * (10 : ℚ) ^ prec) / 10 ^ prec) ++
        (if fixedDigits prec (roundHalfEven (q * (10 : ℚ) ^ prec) % 10 ^ prec) = [] then []
          else '.' :: fixedDigits prec (roundHalfEven (q * (10 : ℚ) ^ prec) % 10 ^ prec)) := by
  unfold fmtMagnitude
  simp only
  by_cases hp : prec = 0
  · subst hp
    simp [fixedDigits]
  · rw [if_neg hp]
    have hl := (fixedDigits_spec prec (roundHalfEven (q * (10 : ℚ) ^ prec) % 10 ^ prec)).2.1
    have hne : fixedDigits prec (roundHalfEven (q * (10 : ℚ) ^ prec) % 10 ^ prec) ≠ [] := by
      intro h
      rw [h] at hl
      simp at hl
      exact hp hl.symm
    rw [if_neg hne]

theorem fmtFixed_reads_back (prec : Nat) (x : ℚ) :
    ∃ k : Nat, readDecimal (fmtFixed prec x).toList
        = some (decide (x < 0), (k : ℚ) / (10 : ℚ) ^ prec) ∧
      abs ((k : ℚ) / (10 : ℚ) ^ prec - abs x) ≤ 1 / (2 * (10 : ℚ) ^ prec) := by
  have hpow : (0 : ℚ) < (10 : ℚ) ^ prec := by positivity
  refine ⟨roundHalfEven (|x| * (10 : ℚ) ^ prec), ?_, ?_⟩
  · obtain ⟨a1, a2, a3⟩ := decDigits_spec
      (roundHalfEven (|x| * (10 : ℚ) ^ prec) / 10 ^ prec + 1)
      (roundHalfEven (|x| * (10 : ℚ) ^ prec) / 10 ^ prec) (by omega)
    obtain ⟨b1, b2, b3⟩ := fixedDigits_spec prec
      (roundHalfEven (|x| * (10 : ℚ) ^ prec) % 10 ^ prec)
    have key := readDecimal_digits _ _ _ _ (decide (x < 0)) a1 b1 a2 a3
    rw [b2, Nat.mod_mod] at key
    have hval : ((roundHalfEven (|x| * (10 : ℚ) ^ prec) / 10 ^ prec : Nat) : ℚ)
        + ((roundHalfEven (|x| * (10 : ℚ) ^ prec) % 10 ^ prec : Nat) : ℚ) / (10 : ℚ) ^ prec
        = ((roundHalfEven (|x| * (10 : ℚ) ^ prec) : Nat) : ℚ) / (10 : ℚ) ^ prec := by
      have hdm := Nat.div_add_mod (roundHalfEven (|x| * (10 : ℚ) ^ prec)) (10 ^ prec)
      have hq : ((10 ^ prec * (roundHalfEven (|x| * (10 : ℚ) ^ prec) / 10 ^ prec)
          + roundHalfEven (|x| * (10 : ℚ) ^ prec) % 10 ^ prec : Nat) : ℚ)
          = ((roundHalfEven (|x| * (10 : ℚ) ^ prec) : Nat) : ℚ) := by rw [hdm]
      push_cast at hq
      rw [← hq]
      field_simp
      ring
    rw [hval] at key
    rw [← key]
    congr 1
    simp only [fmtFixed, String.toList]
    rw [fmtMagnitude_eq]
    by_cases hx : x < 0
    · simp [hx]
    · simp [hx]
  · have herr := roundHalfEven_err (|x| * (10 : ℚ) ^ prec)
      (mul_nonneg (abs_nonneg x) (le_of_lt hpow))
    have e : ((roundHalfEven (|x| * (10 : ℚ) ^ prec) : Nat) : ℚ) / (10 : ℚ) ^ prec - |x|
        = (((roundHalfEven (|x| * (10 : ℚ) ^ prec) : Nat) : ℚ) - |x| * (10 : ℚ) ^ prec)
            / (10 : ℚ) ^ prec := by
      field_simp
      ring
    rw [e, abs_div, abs_of_pos hpow, div_le_iff₀ hpow]
    calc |((roundHalfEven (|x| * (10 : ℚ) ^ prec) : Nat) : ℚ) - |x| * (10 : ℚ) ^ prec|
        ≤ 1 / 2 := herr
      _ = 1 / (2 * (10 : ℚ) ^ prec) * (10 : ℚ) ^ prec := by field_simp

/-! ## Claims on `convertTimeStringToExcel` -/

/-- C1: for every string of the form "H:M" whose two parts `strconv.Atoi` parses
as the integers `H` and `M` (such parts contain no colon, so the string has
exactly one), `convertTimeStringToExcel` returns `(H + M/60)/24` evaluated in
`float64`; for `0 ≤ H, M < 2^53` that value differs from the exact
`(H + M/60)/24` by at most the fraction `2^-51` of it, and it is the exact
value where that is a `float64`, as for "06:00". -/
theorem convertTime_valid (a b : String) (H M : Int)
    (ha : Atoi a.toList = some H) (hb : Atoi b.toList = some M) :
    convertTimeStringToExcel (a ++ ":" ++ b) = fdiv (fadd (ofInt H) (fdiv (ofInt M) 60)) 24 ∧
    (0 ≤ H → H < 9007199254740992 → 0 ≤ M → M < 9007199254740992 →
      |convertTimeStringToExcel (a ++ ":" ++ b) - ((H : ℚ) + (M : ℚ) / 60) / 24|
        ≤ ((H : ℚ) + (M : ℚ) / 60) / 24 * pow2 (-51)) := by
  have h := convertTime_of_parts a b H M ha hb
  refine ⟨h, fun h1 h2 h3 h4 => ?_⟩
  rw [h]
  exact convertTime_accuracy H M h1 h2 h3 h4

/-- Witness for C1: "12:30" gives the `float64` nearest to 25/48, within `2^-51`
of it in proportion, and "06:00" gives 1/4. -/
theorem convertTime_valid_witness :
    (Atoi "12".toList = some 12 ∧ Atoi "30".toList = some 30 ∧
      convertTimeStringToExcel "12:30" = roundF64 (25 / 48) ∧
      |convertTimeStringToExcel "12:30" - 25 / 48| ≤ 25 / 48 * pow2 (-51)) ∧
    (Atoi "06".toList = some 6 ∧ Atoi "00".toList = some 0 ∧
      convertTimeStringToExcel "06:00" = 1 / 4) := by
  refine ⟨⟨by decide, by decide, ?_, ?_⟩, ⟨by decide, by decide, ?_⟩⟩
  · have h := (convertTime_valid "12" "30" 12 30 (by decide) (by decide)).1
    have e : ("12" ++ ":" ++ "30" : String) = "12:30" := by decide
    rw [e] at h
    rw [h]
    decide!
  · have h := (convertTime_valid "12" "30" 12 30 (by decide) (by decide)).2
      (by norm_num) (by norm_num) (by norm_num) (by norm_num)
    have e : ("12" ++ ":" ++ "30" : String) = "12:30" := by decide
    rw [e] at h
    have e2 : ((12 : Int) : ℚ) + ((30 : Int) : ℚ) / 60 = 25 / 2 := by norm_num
    rw [e2] at h
    have e3 : (25 / 2 : ℚ) / 24 = 25 / 48 := by norm_num
    rw [e3] at h
    exact h
  · have h := (convertTime_valid "06" "00" 6 0 (by decide) (by decide)).1
    have e : ("06" ++ ":" ++ "00" : String) = "06:00" := by decide
    rw [e] at h
    rw [h]
    decide!

/-- C5: a string that does not split on `:` into exactly two parts, or one of
whose parts is not a valid base-10 integer, is converted to `0`. -/
theorem convertTime_invalid (s : String)
    (h : (splitColon s.toList).length ≠ 2 ∨
      ∃ p ∈ splitColon s.toList, isDecimalInteger p = false) :
    convertTimeStringToExcel s = 0 := by
  rcases convertTime_cases s with ⟨h0, _⟩ | ⟨p0, p1, H, M, hs, hH, hM, _⟩
  · exact h0
  · exfalso
    rcases h with h | ⟨p, hp, hbad⟩
    · rw [hs] at h; exact h rfl
    · rw [hs] at hp
      simp only [List.mem_cons, List.mem_singleton, List.not_mem_nil, or_false] at hp
      rcases hp with rfl | rfl
      · rw [Atoi_isDecimalInteger _ _ hH] at hbad; exact Bool.noConfusion hbad
      · rw [Atoi_isDecimalInteger _ _ hM] at hbad; exact Bool.noConfusion hbad

/-- Witness for C5: the strings "", "1230", "12:30:00", "ab:cd" and "12:" are
all converted to `0`. -/
theorem convertTime_invalid_witness :
    convertTimeStringToExcel "" = 0 ∧ convertTimeStringToExcel "1230" = 0 ∧
    convertTimeStringToExcel "12:30:00" = 0 ∧ convertTimeStringToExcel "ab:cd" = 0 ∧
    convertTimeStringToExcel "12:" = 0 :=
  ⟨convertTime_invalid "" (Or.inl (by decide)),
   convertTime_invalid "1230" (Or.inl (by decide)),
   convertTime_invalid "12:30:00" (Or.inl (by decide)),
   convertTime_invalid "ab:cd" (Or.inr ⟨"ab".toList, by decide, by decide⟩),
   convertTime_invalid "12:" (Or.inr ⟨[], by decide, by decide⟩)⟩

/-- C8 fails as stated: "25:00" is converted to a value above 1 (the `float64`
nearest to 25/24). -/
theorem convertTime_not_in_unit_interval :
    ¬ ∀ s : String, 0 ≤ convertTimeStringToExcel s ∧ convertTimeStringToExcel s ≤ 1 := by
  intro h
  have h1 := (h "25:00").2
  have e : convertTimeStringToExcel "25:00" = roundF64 (25 / 24) := by
    have h := convertTime_of_parts "25" "00" 25 0 (by decide) (by decide)
    have e : ("25" ++ ":" ++ "00" : String) = "25:00" := by decide
    rw [e] at h
    rw [h]
    decide!
  rw [e] at h1
  have : ¬ (roundF64 (25 / 24) ≤ 1) := by decide!
  exact this h1

/-- C8 amended: for every input string whose hours, if it parses as "H:M", are
within `±2^45`, the value returned lies between 0 and 1 exactly when the input
is rejected (value 0) or `0 ≤ 60*H + M ≤ 1440`. -/
theorem convertTime_in_unit_interval_iff (s : String)
    (hb : ∀ p0 p1 H M, splitColon s.toList = [p0, p1] → Atoi p0 = some H → Atoi p1 = some M →
      -35184372088832 ≤ H ∧ H ≤ 35184372088832) :
    (0 ≤ convertTimeStringToExcel s ∧ convertTimeStringToExcel s ≤ 1) ↔
    ∀ p0 p1 H M, splitColon s.toList = [p0, p1] → Atoi p0 = some H → Atoi p1 = some M →
      0 ≤ 60 * H + M ∧ 60 * H + M ≤ 1440 := by
  rcases convertTime_cases s with ⟨h0, hno⟩ | ⟨p0, p1, H, M, hs, hH, hM, hv⟩
  · rw [h0]
    constructor
    · intro _ q0 q1 H M hq hH hM
      exact absurd ⟨q0, q1, H, M, hq, hH, hM⟩ hno
    · intro _
      norm_num
  · obtain ⟨b1, b2⟩ := hb p0 p1 H M hs hH hM
    rw [hv, convertTime_formula_iff H M b1 b2]
    constructor
    · intro h q0 q1 H2 M2 hq hH2 hM2
      obtain ⟨rfl, rfl⟩ := split_atoi_unique s p0 p1 H M hs hH hM q0 q1 H2 M2 hq hH2 hM2
      exact h
    · intro h
      exact h p0 p1 H M hs hH hM

/-- Witness for C8 amended: "23:59" and "-1:120" are converted to values between
0 and 1, "-1:00" is not. -/
theorem convertTime_in_unit_interval_iff_witness :
    (0 ≤ convertTimeStringToExcel "23:59" ∧ convertTimeStringToExcel "23:59" ≤ 1) ∧
    (0 ≤ convertTimeStringToExcel "-1:120" ∧ convertTimeStringToExcel "-1:120" ≤ 1) ∧
    ¬ (0 ≤ convertTimeStringToExcel "-1:00" ∧ convertTimeStringToExcel "-1:00" ≤ 1) := by
  have u1 := split_atoi_unique "23:59" "23".toList "59".toList 23 59
    (by decide) (by decide) (by decide)
  have u2 := split_atoi_unique "-1:120" "-1".toList "120".toList (-1) 120
    (by decide) (by decide) (by decide)
  have u3 := split_atoi_unique "-1:00" "-1".toList "00".toList (-1) 0
    (by decide) (by decide) (by decide)
  refine ⟨?_, ?_, ?_⟩
  · refine (convertTime_in_unit_interval_iff "23:59" ?_).mpr ?_
    · intro p0 p1 H M hs hH hM
      obtain ⟨rfl, rfl⟩ := u1 p0 p1 H M hs hH hM
      norm_num
    · intro p0 p1 H M hs hH hM
      obtain ⟨rfl, rfl⟩ := u1 p0 p1 H M hs hH hM
      norm_num
  · refine (convertTime_in_unit_interval_iff "-1:120" ?_).mpr ?_
    · intro p0 p1 H M hs hH hM
      obtain ⟨rfl, rfl⟩ := u2 p0 p1 H M hs hH hM
      norm_num
    · intro p0 p1 H M hs hH hM
      obtain ⟨rfl, rfl⟩ := u2 p0 p1 H M hs hH hM
      norm_num
  · intro hin
    have hall := (convertTime_in_unit_interval_iff "-1:00" (by
      intro p0 p1 H M hs hH hM
      obtain ⟨rfl, rfl⟩ := u3 p0 p1 H M hs hH hM
      norm_num)).mp hin
    have := hall "-1".toList "00".toList (-1) 0 (by decide) (by decide) (by decide)
    norm_num at this

/-! ## Claims on `convertDateStringToExcel` -/

/-- C2: for every date string that parses under the layout to a calendar date
`c`, with `n` the number of days from 1900-01-01 to `c`, the function returns
`n + 2` when `c` is after 1900-02-28 and `n + 1` otherwise, and the value is an
integer. -/
theorem convertDate_days_since_1900 (s : String) (c : Civil)
    (h : parseLayout s.toList = some c) :
    ∃ n : Nat, addDays n ⟨1900, 1, 1⟩ = c ∧
      (Civil.before ⟨1900, 2, 28⟩ c → convertDateStringToExcel s = (n : ℚ) + 2) ∧
      (¬ Civil.before ⟨1900, 2, 28⟩ c → convertDateStringToExcel s = (n : ℚ) + 1) ∧
      ∃ k : Int, convertDateStringToExcel s = (k : ℚ) := by
  obtain ⟨hy1, hy2, hv⟩ := parseLayout_sound _ _ h
  have hr := dayNumber_range c hv hy1 hy2
  have hbase : Civil.Valid ⟨1900, 1, 1⟩ := by
    refine ⟨by norm_num, by norm_num, by norm_num, ?_⟩
    have := monthLength_bounds 1900 1
    show (1 : Int) ≤ monthLength 1900 1
    omega
  have hval := convertDate_value s c h
  refine ⟨(dayNumber c - 693595).toNat, ?_, ?_, ?_, ⟨_, hval⟩⟩
  · have := addDays_reaches ⟨1900, 1, 1⟩ c hbase hv (by rw [dayNumber_base]; omega)
    rw [dayNumber_base] at this
    exact this
  · intro _
    rw [hval]
    have e : (((dayNumber c - 693595).toNat : Int)) = dayNumber c - 693595 :=
      Int.toNat_of_nonneg (by omega)
    have e2 : (((dayNumber c - 693595).toNat : Nat) : ℚ) = ((dayNumber c - 693595 : Int) : ℚ) := by
      rw [← e]; push_cast; rfl
    rw [e2]
    push_cast
    ring
  · intro hnot
    exfalso
    apply hnot
    left
    show (1900 : Int) < c.year
    omega

/-- Witness for C2: "00/01/01" parses to 2000-01-01, which is 36524 days after
1900-01-01, and is converted to 36526. -/
theorem convertDate_days_since_1900_witness :
    parseLayout "00/01/01".toList = some ⟨2000, 1, 1⟩ ∧
    ∃ n : Nat, addDays n ⟨1900, 1, 1⟩ = ⟨2000, 1, 1⟩ ∧ n = 36524 ∧
      convertDateStringToExcel "00/01/01" = 36526 := by
  refine ⟨by decide, ?_⟩
  obtain ⟨n, hn, h1, _, _⟩ := convertDate_days_since_1900 "00/01/01" ⟨2000, 1, 1⟩ (by decide)
  have hbase : Civil.Valid ⟨1900, 1, 1⟩ := by
    refine ⟨by norm_num, by norm_num, by norm_num, ?_⟩
    show (1 : Int) ≤ monthLength 1900 1
    decide
  have hc := addDays_count n _ _ hbase hn
  have e : dayNumber ⟨2000, 1, 1⟩ - dayNumber ⟨1900, 1, 1⟩ = 36524 := by decide
  rw [e] at hc
  have hn' : n = 36524 := by omega
  refine ⟨n, hn, hn', ?_⟩
  have hb : Civil.before ⟨1900, 2, 28⟩ ⟨2000, 1, 1⟩ := by
    left; show (1900 : Int) < 2000; norm_num
  rw [h1 hb, hn']
  norm_num

/-- C6 fails as stated: "-5/01/02" is not a two-digit-year YY/MM/DD date, yet
the layout parse reads its year field as the number -5, hence the year 1995,
and the function returns the serial 34701 of 1995-01-02. -/
theorem convertDate_signed_year_accepted :
    isValidYYMMDD "-5/01/02".toList = false ∧
    convertDateStringToExcel "-5/01/02" = 34701 ∧
    convertDateStringToExcel "-5/01/02" ≠ 0 := by
  have hv : convertDateStringToExcel "-5/01/02" = 34701 := by
    have hp : parseLayout "-5/01/02".toList = some ⟨1995, 1, 2⟩ := by decide
    rw [convertDate_value _ _ hp]
    have e : dayNumber ⟨1995, 1, 2⟩ - 693595 + 2 = 34701 := by decide
    rw [e]
    norm_num
  refine ⟨by decide, hv, ?_⟩
  rw [hv]
  norm_num

/-- C6 amended: every string that is neither a valid two-digit-year YY/MM/DD
calendar date nor such a date with a sign and one digit as its year field is
converted to `0`. -/
theorem convertDate_invalid (s : String)
    (h1 : isValidYYMMDD s.toList = false) (h2 : isSignedYearDate s.toList = false) :
    convertDateStringToExcel s = 0 := by
  cases hp : parseLayout s.toList with
  | none => exact convertDate_none s hp
  | some c =>
    exfalso
    rcases digits_isValid_or_signed _ c hp with h | h
    · rw [h] at h1; exact Bool.noConfusion h1
    · rw [h] at h2; exact Bool.noConfusion h2

/-- Witness for C6 amended: "2024/01/05", "24/1/5", "", "23/02/29" and
"24/13/01" are all converted to `0`. -/
theorem convertDate_invalid_witness :
    convertDateStringToExcel "2024/01/05" = 0 ∧ convertDateStringToExcel "24/1/5" = 0 ∧
    convertDateStringToExcel "" = 0 ∧ convertDateStringToExcel "23/02/29" = 0 ∧
    convertDateStringToExcel "24/13/01" = 0 :=
  ⟨convertDate_invalid "2024/01/05" (by decide) (by decide),
   convertDate_invalid "24/1/5" (by decide) (by decide),
   convertDate_invalid "" (by decide) (by decide),
   convertDate_invalid "23/02/29" (by decide) (by decide),
   convertDate_invalid "24/13/01" (by decide) (by decide)⟩

/-- C10: every accepted date string denotes a date from 1969-01-01 to
2068-12-31 (two digits YY from 69 give 19YY, up to 68 give 20YY), which is
after 1900-02-28; the value returned is the number of days from 1899-12-30 to
the date, and a later date gives a larger value. -/
theorem convertDate_excel_serial (s : String) (c : Civil)
    (h : parseLayout s.toList = some c) :
    (¬ c.before ⟨1969, 1, 1⟩ ∧ ¬ Civil.before ⟨2068, 12, 31⟩ c) ∧
    (∀ a b rest, s.toList = a :: b :: rest → a.isDigit = true → b.isDigit = true →
      c.year = if twoDigits a b ≥ 69 then 1900 + twoDigits a b else 2000 + twoDigits a b) ∧
    Civil.before ⟨1900, 2, 28⟩ c ∧
    (∃ n : Nat, addDays n ⟨1899, 12, 30⟩ = c ∧ convertDateStringToExcel s = (n : ℚ)) ∧
    (∀ (s2 : String) (c2 : Civil), parseLayout s2.toList = some c2 → c.before c2 →
      convertDateStringToExcel s < convertDateStringToExcel s2) := by
  obtain ⟨hy1, hy2, hv⟩ := parseLayout_sound _ _ h
  have hr := dayNumber_range c hv hy1 hy2
  have hval := convertDate_value s c h
  have hml := monthLength_bounds c.year c.month
  obtain ⟨hm1, hm2, hd1, hd2⟩ := hv
  refine ⟨⟨?_, ?_⟩, ?_, ?_, ?_, ?_⟩
  · simp only [Civil.before]; omega
  · simp only [Civil.before]; omega
  · intro a b rest hs ha hb
    obtain ⟨a', b', m1, m2, d1, d2, y, hs', hy, _, _, _, _, hc, _⟩ := parseLayout_inv _ c h
    rw [hs'] at hs
    simp only [List.cons.injEq] at hs
    obtain ⟨rfl, rfl, _⟩ := hs
    rcases timeAtoi_two a' b' y hy with ⟨_, _, e⟩ | ⟨hp, _, _⟩ | ⟨hm, _, _⟩
    · rw [hc, e]
      show (if twoDigits a' b' ≥ 69 then twoDigits a' b' + 1900 else twoDigits a' b' + 2000) = _
      split_ifs <;> omega
    · rw [hp] at ha; exact absurd ha (by decide)
    · rw [hm] at ha; exact absurd ha (by decide)
  · left; show (1900 : Int) < c.year; omega
  · have hbase : Civil.Valid ⟨1899, 12, 30⟩ := by
      refine ⟨by norm_num, by norm_num, by norm_num, ?_⟩
      show (30 : Int) ≤ monthLength 1899 12
      decide
    have hdn : dayNumber ⟨1899, 12, 30⟩ = 693593 := by decide
    refine ⟨(dayNumber c - 693593).toNat, ?_, ?_⟩
    · have := addDays_reaches ⟨1899, 12, 30⟩ c hbase ⟨hm1, hm2, hd1, hd2⟩ (by rw [hdn]; omega)
      rw [hdn] at this
      exact this
    · rw [hval]
      have e : (((dayNumber c - 693593).toNat : Int)) = dayNumber c - 693593 :=
        Int.toNat_of_nonneg (by omega)
      have e2 : (((dayNumber c - 693593).toNat : Nat) : ℚ) = ((dayNumber c - 693593 : Int) : ℚ) := by
        rw [← e]; push_cast; rfl
      rw [e2]
      push_cast
      ring
  · intro s2 c2 h2 hlt
    obtain ⟨_, _, hv2⟩ := parseLayout_sound _ _ h2
    have := dayNumber_lt_of_before c c2 ⟨hm1, hm2, hd1, hd2⟩ hv2 hlt
    rw [hval, convertDate_value s2 c2 h2]
    exact_mod_cast (by omega : dayNumber c - 693595 + 2 < dayNumber c2 - 693595 + 2)

/-- Witness for C10: "00/01/01" is 2000-01-01 and is converted to 36526, the
number of days from 1899-12-30; "99/12/31" is converted to less. -/
theorem convertDate_excel_serial_witness :
    parseLayout "00/01/01".toList = some ⟨2000, 1, 1⟩ ∧
    convertDateStringToExcel "00/01/01" = 36526 ∧
    convertDateStringToExcel "99/12/31" < convertDateStringToExcel "00/01/01" := by
  have hb : Civil.Valid ⟨1899, 12, 30⟩ := by
    refine ⟨by norm_num, by norm_num, by norm_num, ?_⟩
    show (30 : Int) ≤ monthLength 1899 12
    decide
  obtain ⟨_, _, _, ⟨n, hn, hres⟩, _⟩ :=
    convertDate_excel_serial "00/01/01" ⟨2000, 1, 1⟩ (by decide)
  obtain ⟨_, _, _, _, hmono⟩ :=
    convertDate_excel_serial "99/12/31" ⟨1999, 12, 31⟩ (by decide)
  have hc := addDays_count n _ _ hb hn
  have e : dayNumber ⟨2000, 1, 1⟩ - dayNumber ⟨1899, 12, 30⟩ = 36526 := by decide
  rw [e] at hc
  have hn' : n = 36526 := by omega
  refine ⟨by decide, ?_, ?_⟩
  · rw [hres, hn']; norm_num
  · exact hmono "00/01/01" ⟨2000, 1, 1⟩ (by decide) (by left; show (1999 : Int) < 2000; norm_num)

/-! ## Claims on the conversion and row-writing steps of `main` -/

/-- C3 fails as stated: "1375" in column exitAlt parses as 1375, the product
1375 × 3.28084 is 4511.155, which rounded to 2 decimals is "4511.16", but
the record value becomes "4511.15", the `float64` product being just below
4511.155. -/
theorem convertValue_rounds_float_product :
    parseDecimal "1375" = some (F64.num 1375) ∧
    (1375 : ℚ) * 3.28084 = 4511.155 ∧
    fmtFixed 2 ((1375 : ℚ) * 3.28084) = "4511.16" ∧
    convertValue parseDecimal "exitAlt" "1375" = "4511.15" := by
  refine ⟨by decide!, by norm_num, ?_, by decide!⟩
  have e : (1375 : ℚ) * 3.28084 = 4511155 / 1000 := by norm_num
  rw [e]
  decide!

/-- C3 amended: in the conversion step, a non-empty value that parses as the
`float64` `v` becomes the `float64` product of `v` and 3.28084 written by
`%.2f` in a feet column, of `v` and 0.000621371 written by `%.3f` in a miles
column, of `v` and 2.23694 written by `%.1f` in an mph column; a value in any
other column is left unchanged; what `%.Nf` writes for a finite number reads
back as a decimal with `N` decimals within half a unit of the last decimal of
that number; a negative zero is written as "-0.00", "-0.000" or "-0.0", an
infinity as "+Inf" or "-Inf" and NaN as "NaN". -/
theorem convertValue_units (pf : String → Option F64) (colName value : String) :
    (∀ v : F64, value ≠ "" → pf value = some v →
      (colName ∈ ["exitAlt", "openAlt"] →
        convertValue pf colName value = F64.format 2 (F64.mul v (F64.round 3.28084))) ∧
      (colName ∈ ["exitDist", "openDist", "cpDist", "ffDist"] →
        convertValue pf colName value = F64.format 3 (F64.mul v (F64.round 0.000621371))) ∧
      (colName ∈ ["ffAvgVSpd", "ffMaxVSpd", "cpAvgVSpd", "cpMaxVSpd"] →
        convertValue pf colName value = F64.format 1 (F64.mul v (F64.round 2.23694)))) ∧
    (colName ∉ ["exitAlt", "openAlt"] →
      colName ∉ ["exitDist", "openDist", "cpDist", "ffDist"] →
      colName ∉ ["ffAvgVSpd", "ffMaxVSpd", "cpAvgVSpd", "cpMaxVSpd"] →
      convertValue pf colName value = value) ∧
    (∀ (prec : Nat) (x : ℚ), ∃ k : Nat,
      readDecimal (F64.format prec (F64.num x)).toList
        = some (decide (x < 0), (k : ℚ) / (10 : ℚ) ^ prec) ∧
      abs ((k : ℚ) / (10 : ℚ) ^ prec - abs x) ≤ 1 / (2 * (10 : ℚ) ^ prec)) ∧
    (F64.format 2 F64.negZero = "-0.00" ∧ F64.format 3 F64.negZero = "-0.000" ∧
      F64.format 1 F64.negZero = "-0.0" ∧
      ∀ prec : Nat, F64.format prec (F64.inf false) = "+Inf" ∧
        F64.format prec (F64.inf true) = "-Inf" ∧ F64.format prec F64.nan = "NaN") := by
  have c1 : (3.28084 : ℚ) = metersToFeet := by norm_num [metersToFeet]
  have c2 : (0.000621371 : ℚ) = metersToMiles := by norm_num [metersToMiles]
  have c3 : (2.23694 : ℚ) = mpsToMph := by norm_num [mpsToMph]
  refine ⟨fun V hne hp => ⟨fun h => ?_, fun h => ?_, fun h => ?_⟩, fun h1 h2 h3 => ?_,
    fun prec x => fmtFixed_reads_back prec x, by decide!, by decide!, by decide!,
    fun prec => ⟨rfl, rfl, rfl⟩⟩
  · rw [c1]; exact convertValue_feet pf colName value V hne hp h
  · rw [c2]; exact convertValue_miles pf colName value V hne hp h
  · rw [c3]; exact convertValue_mph pf colName value V hne hp h
  · exact convertValue_other pf colName value h1 h2 h3

/-- Witness for C3 amended: in column exitAlt "1000" becomes "3280.84", "-0"
becomes "-0.00" and an infinite value becomes "+Inf"; "1000" in the column
"name" is left as it is. -/
theorem convertValue_units_witness :
    parseDecimal "1000" = some (F64.num 1000) ∧
    convertValue parseDecimal "exitAlt" "1000" = "3280.84" ∧
    convertValue parseDecimal "exitAlt" "-0" = "-0.00" ∧
    convertValue (fun _ => some (F64.inf false)) "exitAlt" "Inf" = "+Inf" ∧
    convertValue parseDecimal "name" "1000" = "1000" := by
  have h := convertValue_units parseDecimal "exitAlt" "1000"
  have h1 := convertValue_units parseDecimal "exitAlt" "-0"
  have h2 := convertValue_units parseDecimal "name" "1000"
  have h3 := convertValue_units (fun _ => some (F64.inf false)) "exitAlt" "Inf"
  have c1 : (3.28084 : ℚ) = metersToFeet := by norm_num [metersToFeet]
  refine ⟨by decide!, ?_, ?_, ?_, h2.2.1 (by decide) (by decide) (by decide)⟩
  · rw [(h.1 (F64.num 1000) (by decide) (by decide!)).1 (by decide), c1]
    decide!
  · rw [(h1.1 F64.negZero (by decide) (by decide!)).1 (by decide), c1]
    decide!
  · rw [(h3.1 (F64.inf false) (by decide) rfl).1 (by decide), c1]
    decide!

/-- C4: in a convertible column a value that does not parse as a number is left
unchanged by the conversion step and is written as the original string; the
row is written in full, with that string in the cell of the column. -/
theorem nonNumeric_passed_through (pf : String → Option F64) (colName value : String)
    (hcol : colName ∈ feetColumns ∨ colName ∈ milesColumns ∨ colName ∈ mphColumns)
    (hp : pf value = none) :
    convertValue pf colName value = value ∧
    writeCell pf colName (convertValue pf colName value) = Cell.str value ∧
    ∀ (headers record : List String) (i : Nat), headers.length = record.length →
      headers[i]? = some colName → record[i]? = some value →
      (processRow pf headers record).length = record.length ∧
      (processRow pf headers record)[i]? = some (Cell.str value) := by
  obtain ⟨ht, hd⟩ := convertible_not_time_date colName hcol
  have h1 := convertValue_of_none pf colName value hp
  have h2 : writeCell pf colName (convertValue pf colName value) = Cell.str value := by
    rw [h1]; exact writeCell_of_none pf colName value ht hd hp
  refine ⟨h1, h2, fun headers record i hlen hh hr => ⟨processRow_length pf headers record hlen, ?_⟩⟩
  rw [processRow_getElem? pf headers record i colName value hh hr, h2]

/-- Witness for C4: "n/a" in column exitAlt is written as the string "n/a". -/
theorem nonNumeric_passed_through_witness :
    parseDecimal "n/a" = none ∧
    convertValue parseDecimal "exitAlt" "n/a" = "n/a" ∧
    processRow parseDecimal ["num", "exitAlt"] ["7", "n/a"] = [Cell.int 7, Cell.str "n/a"] := by
  have h := nonNumeric_passed_through parseDecimal "exitAlt" "n/a" (Or.inl (by decide))
    (by decide!)
  exact ⟨by decide!, h.1, by decide!⟩

/-- C9: in the row-writing step, for a column other than "time" and "date" and
a value that parses as a `float64`: an integer column gets the integer obtained
by truncating the number `x` the value denotes toward zero (when it fits an
`int`), any other column gets the parsed value itself as a float. -/
theorem writeCell_numeric (pf : String → Option F64) (colName value : String) (v : F64)
    (ht : colName ≠ "time") (hd : colName ≠ "date") (hp : pf value = some v) :
    (∀ x : ℚ, v.toRat = some x →
      colName ∈ ["num", "ffSecs", "cpSecs", "cpAvgSpd", "cpMaxVSpd", "aircraftSecs"] →
      -9223372036854775808 ≤ truncTowardZero x → truncTowardZero x ≤ 9223372036854775807 →
      writeCell pf colName value = Cell.int (truncTowardZero x)) ∧
    (colName ∉ ["num", "ffSecs", "cpSecs", "cpAvgSpd", "cpMaxVSpd", "aircraftSecs"] →
      writeCell pf colName value = Cell.float v) := by
  constructor
  · intro x hx hmem h1 h2
    have hi : integerColumns colName = true := by
      simp only [integerColumns]; rw [contains_iff_mem]; exact hmem
    have hf : floatToInt v = some (truncTowardZero x) := by
      simp only [floatToInt, hx, tdiv_eq_truncTowardZero]
      rw [if_pos ⟨h1, h2⟩]
    simp [writeCell, ht, hd, hp, hi, hf]
  · intro hmem
    have hi : integerColumns colName = false := by
      simp only [integerColumns]
      rw [← Bool.not_eq_true, contains_iff_mem]; exact hmem
    simp [writeCell, ht, hd, hp, hi]

/-- Witness for C9: in the integer column num, "12.9" is written as 12 and
"-0.5" as 0; in the column ffAvgGlide, "12.9" is written as the `float64`
nearest to 12.9. -/
theorem writeCell_numeric_witness :
    writeCell parseDecimal "num" "12.9" = Cell.int 12 ∧
    writeCell parseDecimal "num" "-0.5" = Cell.int 0 ∧
    writeCell parseDecimal "ffAvgGlide" "12.9" = Cell.float (F64.num (roundF64 (129 / 10))) := by
  have t1 : truncTowardZero (roundF64 (129 / 10)) = 12 := by
    rw [← tdiv_eq_truncTowardZero]; decide!
  have t2 : truncTowardZero (-(1 / 2)) = 0 := by
    rw [← tdiv_eq_truncTowardZero]; decide!
  have h1 := (writeCell_numeric parseDecimal "num" "12.9" (F64.num (roundF64 (129 / 10)))
    (by decide) (by decide) (by decide!)).1 (roundF64 (129 / 10)) rfl (by decide)
    (by rw [t1]; norm_num) (by rw [t1]; norm_num)
  have h2 := (writeCell_numeric parseDecimal "num" "-0.5" (F64.num (-(1 / 2)))
    (by decide) (by decide) (by decide!)).1 (-(1 / 2)) rfl (by decide)
    (by rw [t2]; norm_num) (by rw [t2]; norm_num)
  have h3 := (writeCell_numeric parseDecimal "ffAvgGlide" "12.9"
    (F64.num (roundF64 (129 / 10))) (by decide) (by decide)
    (by decide!)).2 (by decide)
  rw [t1] at h1
  rw [t2] at h2
  exact ⟨h1, h2, h3⟩

/-- C7 at its failing input: "cpMaxVSpd" is both an mph column and an integer
column; the value "10" is converted to "22.4" and then written as the integer
22, while the same value in the mph column cpAvgVSpd is written as the float
22.4. -/
theorem cpMaxVSpd_in_two_classes :
    "cpMaxVSpd" ∈ mphColumns ∧ integerColumns "cpMaxVSpd" = true ∧
    convertValue parseDecimal "cpMaxVSpd" "10" = "22.4" ∧
    processRow parseDecimal ["cpMaxVSpd", "cpAvgVSpd"] ["10", "10"] =
      [Cell.int 22, Cell.float (F64.num (roundF64 (224 / 10)))] := by
  refine ⟨by decide, by decide, by decide!, by decide!⟩

end Logbook
